import Mathlib

/-!
Verification of the HIVELAB rearrange engine (src/app/jobs/rearrange_job.py and
src/app/controller.py) against its natural-language specification.

The Python program is shallowly embedded: paths are lists of name segments, the
filesystem is a finite association of paths to nodes, machine integers are Nat
and Int, fallible code returns Except, and the external imaging library (PIL)
is an oracle supplied as an explicit argument.  Every definition below is
translated from the source file it names in its doc comment.
-/

namespace Rearrange

/-! ### Decimal rendering of naturals

Models the decimal rendering used by Python f-strings such as
str(i) in the destination-name collision loop.  Defined by structural
recursion on a fuel argument so that the kernel can evaluate it. -/

/-- The character of a single decimal digit (0 maps to the character 0, etc.). -/
def digitChar (d : Nat) : Char := Char.ofNat (48 + d)

/-- Decimal digits of a natural, most significant first; fuel-driven recursion. -/
def natReprAux : Nat → Nat → List Char
  | 0, _ => []
  | fuel+1, n => if n < 10 then [digitChar n] else natReprAux fuel (n / 10) ++ [digitChar (n % 10)]

/-- Decimal rendering of a natural number, as produced by Python str(n). -/
def natRepr (n : Nat) : String := String.mk (natReprAux (n + 1) n)

/-- Decimal rendering of an integer, as produced by Python str(i). -/
def intRepr (i : Int) : String :=
  if i < 0 then "-" ++ natRepr i.natAbs else natRepr i.natAbs

/-! ### Python string primitives -/

/-- Membership of a character among the ASCII whitespace characters recognised
by Python str.strip and by the regex class backslash-s (the model is restricted
to ASCII; the program only ever strips user-typed names and numbers). -/
def isPySpace (c : Char) : Bool :=
  c = ' ' || c = '\t' || c = '\n' || c = '\x0d' || c = '\x0b' || c = '\x0c'

/-- Python str.strip with no arguments: drop whitespace on both ends. -/
def pyStrip (s : String) : String :=
  String.mk (((s.data.dropWhile isPySpace).reverse.dropWhile isPySpace).reverse)

/-- Python str.lower, modelled on the ASCII range (Char.toLower lowers A-Z). -/
def pyLower (s : String) : String := String.mk (s.data.map Char.toLower)

/-- Python str.split with a one-character separator: split at every
occurrence, keeping empty parts (the empty string yields one empty part). -/
def splitChar (sep : Char) : List Char → List (List Char)
  | [] => [[]]
  | c :: rest =>
    let r := splitChar sep rest
    if c = sep then [] :: r
    else
      match r with
      | [] => [[c]]
      | h :: t => (c :: h) :: t

/-- Python s.split(sep) for a one-character separator. -/
def pySplit (sep : Char) (s : String) : List String := (splitChar sep s.data).map String.mk

/-- Python str.casefold, modelled as ASCII lowercasing (agrees with casefold on
the ASCII names the program sorts; Korean has no case). -/
def caseFold (cs : List Char) : List Char := cs.map Char.toLower

/-- Code-point lexicographic strict order on character lists: the order Python
uses to compare strings. -/
def charListLt : List Char → List Char → Bool
  | [], [] => false
  | [], _ :: _ => true
  | _ :: _, [] => false
  | a :: as, b :: bs =>
    if a.toNat < b.toNat then true
    else if b.toNat < a.toNat then false
    else charListLt as bs

/-- Insert an element into an already sorted list, before the first element it
is le-related to.  Together with pySorted this is the unique stable ascending
sort, hence observationally equal to Python sorted. -/
def insertSorted {α : Type} (le : α → α → Bool) (a : α) : List α → List α
  | [] => [a]
  | b :: l => if le a b then a :: b :: l else b :: insertSorted le a l

/-- Stable ascending sort (insertion sort), modelling Python sorted. -/
def pySorted {α : Type} (le : α → α → Bool) : List α → List α
  | [] => []
  | a :: l => insertSorted le a (pySorted le l)

/-- Comparison used by sorted on Paths sharing a parent: name le name. -/
def nameLe (a b : String) : Bool := !(charListLt b.data a.data)

/-- Comparison used by sorted(key=str.casefold): case-folded name le. -/
def caseFoldLe (a b : String) : Bool := !(charListLt (caseFold b.data) (caseFold a.data))

/-- Validity of the digit part of a Python int literal: digits with single
underscores allowed between digits.  The Bool argument records whether the
previous character was a digit (so an underscore or the end is allowed). -/
def pyIntCore : List Char → Bool → Bool
  | [], seenDigit => seenDigit
  | c :: rest, seenDigit =>
    if c = '_' then seenDigit && pyIntCore rest false
    else c.isDigit && pyIntCore rest true

/-- Numeric value of a list of decimal digit characters. -/
def digitsVal (cs : List Char) : Nat := cs.foldl (fun a c => 10 * a + (c.toNat - 48)) 0

/-- Python int(s) for base 10: strip whitespace, optional sign, digit run with
optional single underscores; None models the ValueError raise.  (The model is
restricted to ASCII digits and whitespace.) -/
def pyIntParse (s : String) : Option Int :=
  let cs := (pyStrip s).data
  let signAndDigits : Int × List Char :=
    match cs with
    | '+' :: rest => (1, rest)
    | '-' :: rest => (-1, rest)
    | _ => (1, cs)
  if pyIntCore signAndDigits.2 false then
    some (signAndDigits.1 * (digitsVal (signAndDigits.2.filter (fun c => c ≠ '_')) : Int))
  else none

/-! ### Paths and the filesystem model -/

/-- A path is its list of name segments, root first. -/
abbrev Path := List String

/-- Rendering of a path as Python str(Path), POSIX style. -/
def pathStr (p : Path) : String := String.intercalate "/" p

/-- The final name segment of a path (Python Path.name). -/
def lastName (p : Path) : String := p.getLastD ""

/-- A filesystem node: a directory, or a file with abstract content.  Contents
are opaque blob identifiers; the imaging oracle interprets them. -/
inductive Node
  | dir : Node
  | file : Nat → Node
  deriving DecidableEq, Repr

/-- A finite filesystem: an association list from absolute paths to nodes.
Lookups take the first entry for a path. -/
structure FS where
  entries : List (Path × Node)
  deriving DecidableEq, Repr

/-- The node stored at a path, if any. -/
def FS.node (fs : FS) (p : Path) : Option Node :=
  (fs.entries.find? (fun e => e.1 = p)).map (fun e => e.2)

/-- Python Path.exists(). -/
def FS.existsP (fs : FS) (p : Path) : Bool := (fs.node p).isSome

/-- Python Path.is_dir(). -/
def FS.isDir (fs : FS) (p : Path) : Bool :=
  match fs.node p with
  | some Node.dir => true
  | _ => false

/-- Python Path.is_file(). -/
def FS.isFile (fs : FS) (p : Path) : Bool :=
  match fs.node p with
  | some (Node.file _) => true
  | _ => false

/-- Whether q is a direct child of parent. -/
def isChildOf (parent q : Path) : Bool :=
  q.length = parent.length + 1 && q.take parent.length = parent

/-- Names of the direct children of a path, in the enumeration order of the
filesystem (Python Path.iterdir yields an unspecified OS order; the model
fixes it to entry order). -/
def FS.childNames (fs : FS) (p : Path) : List String :=
  (fs.entries.filter (fun e => isChildOf p e.1)).filterMap (fun e => e.1.getLast?)

/-- Store a node at a path: overwrite in place if present, else append. -/
def FS.insertNode (fs : FS) (p : Path) (n : Node) : FS :=
  if fs.existsP p then
    ⟨fs.entries.map (fun e => if e.1 = p then (p, n) else e)⟩
  else ⟨fs.entries ++ [(p, n)]⟩

/-- Python Path.mkdir(parents=True, exist_ok=True): create every missing
ancestor directory and the directory itself. -/
def FS.mkdirParents (fs : FS) (p : Path) : FS :=
  (List.range p.length).foldl
    (fun acc i =>
      let q := p.take (i + 1)
      if acc.existsP q then acc else acc.insertNode q Node.dir)
    fs

/-- The strict descendants of a path, in entry order. -/
def FS.subtreeEntries (fs : FS) (root : Path) : List (Path × Node) :=
  fs.entries.filter (fun e => root.length < e.1.length && e.1.take root.length = root)

/-- shutil.copy2 of a regular file (metadata is not modelled). -/
def FS.copyFile (fs : FS) (src dst : Path) : FS :=
  match fs.node src with
  | some (Node.file c) => fs.insertNode dst (Node.file c)
  | _ => fs

/-- The helper copy_tree of rearrange_job.py: make the parent of dst, then
shutil.copytree(src, dst). -/
def copy_tree (fs : FS) (src dst : Path) : FS :=
  let fs1 := fs.mkdirParents dst.dropLast
  let fs2 := fs1.insertNode dst Node.dir
  (fs2.subtreeEntries src).foldl
    (fun acc e => acc.insertNode (dst ++ e.1.drop src.length) e.2) fs2

/-! ### Name manipulation (Path.stem, Path.suffix, the post-number regex) -/

/-- Index of the last occurrence of a character in a list, if any. -/
def rfindIdx (c : Char) (cs : List Char) : Option Nat :=
  (cs.reverse.findIdx? (fun x => x = c)).map (fun j => cs.length - 1 - j)

/-- Python Path.suffix of a final name segment: from the last dot, provided the
dot is neither the first nor the last character. -/
def suffixOf (name : String) : String :=
  match rfindIdx '.' name.data with
  | some i => if 0 < i ∧ i < name.data.length - 1 then String.mk (name.data.drop i) else ""
  | none => ""

/-- Python Path.stem of a final name segment. -/
def stemOf (name : String) : String :=
  match rfindIdx '.' name.data with
  | some i => if 0 < i ∧ i < name.data.length - 1 then String.mk (name.data.take i) else name

  | none => name

/-- The fixed set of recognised image extensions (IMAGE_EXTS). -/
def IMAGE_EXTS : List String := [".jpg", ".jpeg", ".png", ".webp", ".bmp", ".tiff"]

/-- suffix.lower() in IMAGE_EXTS, the filter used throughout the pipeline. -/
def isImageName (name : String) : Bool := IMAGE_EXTS.contains (pyLower (suffixOf name))

/-- Length of the match of the anchored regex POST_NUM_RE (whitespace, digits,
a literal dot) against the start of a name, if it matches. -/
def postNumEnd (cs : List Char) : Option Nat :=
  let ws := cs.takeWhile isPySpace
  let rest := cs.drop ws.length
  let ds := rest.takeWhile Char.isDigit
  if ds ≠ [] ∧ (rest.drop ds.length).head? = some '.' then
    some (ws.length + ds.length + 1)
  else none

/-- Drop a leading numeric tag of the form digits-then-dot (with optional
leading whitespace) from a name, as copy_account_posts does with POST_NUM_RE. -/
def stripPostNum (name : String) : String :=
  match postNumEnd name.data with
  | some e => String.mk (name.data.drop e)
  | none => name

/-! ### The image model and the resize stage -/

/-- Image metadata: pixel dimensions, the EXIF orientation tag and the format
name.  Pixel data itself stays inside the abstract file content. -/
structure Img where
  width : Nat
  height : Nat
  orientation : Nat
  format : String
  deriving DecidableEq, Repr

/-- PIL ImageOps.exif_transpose: orientations 5 to 8 transpose the axes; the
result carries no orientation tag (normalised to 1). -/
def exifTranspose (im : Img) : Img :=
  if 5 ≤ im.orientation ∧ im.orientation ≤ 8 then
    { width := im.height, height := im.width, orientation := 1, format := im.format }
  else
    { im with orientation := 1 }

/-- The external imaging library as an oracle: decoding looks at whatever the
filesystem holds at the opened path (missing file or undecodable content fail
with a message, as PIL raising), and encoding yields the abstract content of a
saved image.  Text measuring abstracts font metrics. -/
structure ImgOracle where
  decode : Option Node → Except String Img
  encode : Img → Nat
  measure : String → String → Nat → Int → Nat × Nat

/-- parse_size of rearrange_job.py: split the lowered preset on the letter x
and parse both parts as Python ints; any failure yields (1080, 1080). -/
def parse_size (preset : String) : Int × Int :=
  match pySplit 'x' (pyLower preset) with
  | [a, b] =>
    match pyIntParse a, pyIntParse b with
    | some w, some h => (w, h)
    | _, _ => (1080, 1080)
  | _ => (1080, 1080)

/-- resize_cover of rearrange_job.py: apply EXIF orientation, scale both sides
by max(tw/sw, th/sh), then center-crop to the target box.  Real arithmetic is
modelled with rationals; Mathlib round stands in for Python float rounding
(the tie-breaking rule differs, and no theorem below depends on it).  PIL crop
yields exactly the requested box size, padding when the box overruns. -/
def resize_cover (img0 : Img) (tw th : Int) : Img :=
  let img := exifTranspose img0
  let sw := img.width
  let sh := img.height
  if sw = 0 ∨ sh = 0 then img
  else
    let scale : ℚ := max ((tw : ℚ) / (sw : ℚ)) ((th : ℚ) / (sh : ℚ))
    let nw : Int := round ((sw : ℚ) * scale)
    let nh : Int := round ((sh : ℚ) * scale)
    let left : Int := max 0 ((nw - tw).fdiv 2)
    let top : Int := max 0 ((nh - th).fdiv 2)
    let right : Int := left + tw
    let bottom : Int := top + th
    { width := (right - left).toNat, height := (bottom - top).toNat,
      orientation := 1, format := img.format }

/-! ### Run parameters -/

/-- Watermark configuration (params.watermark). -/
structure WatermarkCfg where
  enabled : Bool
  text : String
  font_path : String
  font_size : Nat
  position : String
  offset_x : Int
  offset_y : Int
  color : String
  opacity : Int
  outline : Bool
  outline_width : Int
  deriving DecidableEq, Repr

/-- Resize configuration (params.resize). -/
structure ResizeCfg where
  enabled : Bool
  preset : String
  deriving DecidableEq, Repr

/-- One raw target record as supplied by the caller; a present path models a
nonblank path string (the code turns a blank path into None). -/
structure RawTarget where
  name : String
  path : Option Path
  deriving DecidableEq, Repr

/-- The TargetSlot dataclass. -/
structure TargetSlot where
  name : String
  existing_path : Option Path
  deriving DecidableEq, Repr

/-- The run parameter record (context.params). -/
structure Params where
  A_root : Path
  B_root : Path
  target_root : Path
  dry_run : Bool
  perm_mode : String
  perm_k : String
  perm_n : String
  perm_d : String
  perm_r : String
  rand_seed : String
  targets : List RawTarget
  resize : ResizeCfg
  watermark : WatermarkCfg
  deriving DecidableEq, Repr

/-! ### Collision-safe destination naming (ensure_unique_dir) -/

/-- The candidate name tried at step j of the collision loop: the desired name
itself first, then the name suffixed with " (2)", " (3)", and so on. -/
def uniqueCand (base : String) (j : Nat) : String :=
  if j = 0 then base else base ++ " (" ++ natRepr (j + 1) ++ ")"

/-- The while loop of ensure_unique_dir, with fuel.  The fuel is spent only on
candidates that already exist; distinct candidates occupy distinct filesystem
entries, so the fuel supplied by ensure_unique_dir below is never exhausted. -/
def ensureUniqueLoop (fs : FS) (parent : Path) (base : String) : Nat → Nat → Path
  | j, 0 => parent ++ [uniqueCand base j]
  | j, fuel+1 =>
    if fs.existsP (parent ++ [uniqueCand base j]) then
      ensureUniqueLoop fs parent base (j + 1) fuel
    else parent ++ [uniqueCand base j]

/-- ensure_unique_dir of rearrange_job.py: return a path under parent that
does not yet exist, suffixing " (2)", " (3)", ... if needed. -/
def ensure_unique_dir (fs : FS) (parent : Path) (base : String) : Path :=
  ensureUniqueLoop fs parent base 0 (fs.entries.length + 1)

/-! ### Account discovery (find_account_dirs) -/

/-- The first run of digits in a name, as found by the search of the regex
ACCOUNT_NUM_RE. -/
def firstDigitRun : List Char → Option (List Char)
  | [] => none
  | c :: cs =>
    if c.isDigit then some ((c :: cs).takeWhile Char.isDigit) else firstDigitRun cs

/-- The account number parsed from a folder name: the integer value of the
first digit run, if the name contains a digit. -/
def parseAccountNum (name : String) : Option Nat :=
  (firstDigitRun name.data).map digitsVal

/-- One step of the accumulation loop of find_account_dirs: record the parsed
number if it lies in 1..6 and is not already claimed. -/
def accountStep (groupRoot : Path) (acc : List (Nat × Path)) (n : String) : List (Nat × Path) :=
  match parseAccountNum n with
  | none => acc
  | some k =>
    if 1 ≤ k ∧ k ≤ 6 ∧ (acc.lookup k).isNone then acc ++ [(k, groupRoot ++ [n])]
    else acc

/-- The direct sub-directories of a pool root, in sorted name order (Paths
sharing a parent compare by final name). -/
def sortedSubdirs (fs : FS) (groupRoot : Path) : List String :=
  pySorted nameLe ((fs.childNames groupRoot).filter (fun n => fs.isDir (groupRoot ++ [n])))

/-- find_account_dirs of rearrange_job.py: map account numbers 1..6 to the
account directories detected under a pool root, scanning direct
sub-directories in sorted name order.  A missing root yields an empty map. -/
def find_account_dirs (fs : FS) (groupRoot : Path) : List (Nat × Path) :=
  if fs.existsP groupRoot then
    (sortedSubdirs fs groupRoot).foldl (accountStep groupRoot) []
  else []

/-! ### Post normalization (collect_and_normalize_posts) -/

/-- Python dict assignment on an association list: overwrite in place when the
key is present, append otherwise (insertion order preserved). -/
def dictSet {α : Type} (m : List (Nat × α)) (k : Nat) (v : α) : List (Nat × α) :=
  if (m.lookup k).isSome then m.map (fun e => if e.1 = k then (k, v) else e)
  else m ++ [(k, v)]

/-- The all-None post map that collect_and_normalize_posts starts from. -/
def emptyPostMap : List (Nat × Option Path) :=
  (List.range' 1 5).map (fun i => (i, (none : Option Path)))

/-- Direct children of an account directory (files and directories), sorted
ascending by case-folded name; stable in the enumeration order, as Python
sorted with key str.casefold. -/
def sortedChildren (fs : FS) (d : Path) : List String :=
  pySorted caseFoldLe
    ((fs.childNames d).filter (fun n => fs.isDir (d ++ [n]) || fs.isFile (d ++ [n])))

/-- collect_and_normalize_posts of rearrange_job.py: map post numbers 1..5 to
the first five direct children of the account directory in case-folded name
order; missing numbers map to None, and an absent or non-existent directory
yields the all-None map. -/
def collect_and_normalize_posts (fs : FS) (accountDir : Option Path) :
    List (Nat × Option Path) :=
  match accountDir with
  | none => emptyPostMap
  | some d =>
    if fs.existsP d then
      ((sortedChildren fs d).take 5).enum.foldl
        (fun m e => dictSet m (e.1 + 1) (some (d ++ [e.2]))) emptyPostMap
    else emptyPostMap

/-! ### Permutation selection and the slot map -/

/-- parse_perm_string of rearrange_job.py: split on dashes, drop blank parts,
parse each part as a Python int; the error carries the first bad part, as the
ValueError int() raises. -/
def parse_perm_string_parts : List String → Except String (List Int)
  | [] => Except.ok []
  | p :: rest =>
    match pyIntParse p with
    | none => Except.error ("invalid literal for int() with base 10: " ++ p)
    | some n => (parse_perm_string_parts rest).map (fun ns => n :: ns)

/-- parse_perm_string of rearrange_job.py, on the raw string. -/
def parse_perm_string (s : String) : Except String (List Int) :=
  parse_perm_string_parts (((pySplit '-' s).map pyStrip).filter (fun x => x ≠ ""))

/-- The six permutations of a base triple, in the order listed in choose_perm. -/
def sixPerms (base : Int × Int × Int) : List (List Int) :=
  [[base.1, base.2.1, base.2.2],
   [base.1, base.2.2, base.2.1],
   [base.2.1, base.1, base.2.2],
   [base.2.1, base.2.2, base.1],
   [base.2.2, base.1, base.2.1],
   [base.2.2, base.2.1, base.1]]

/-- choose_perm of rearrange_job.py: in random mode with a generator present,
draw one of the six permutations (the seeded generator is the pick oracle);
otherwise parse the manual string. -/
def choose_perm (base : Int × Int × Int) (mode : String) (manualStr : String)
    (rng : Option (List (List Int) → List Int)) : Except String (List Int) :=
  match rng with
  | some pick => if mode = "random" then Except.ok (pick (sixPerms base)) else parse_perm_string manualStr
  | none => parse_perm_string manualStr

/-- SLOT_RANGES of rearrange_job.py: the fixed 3-slot range of a sub-group. -/
def SLOT_RANGES (g : String) : List Nat :=
  if g = "ㄱ" then [1, 2, 3]
  else if g = "ㄴ" then [4, 5, 6]
  else if g = "ㄷ" then [7, 8, 9]
  else if g = "ㄹ" then [10, 11, 12]
  else []

/-- dict.get on an account map keyed by an int chosen from a permutation. -/
def acctGet (accounts : List (Nat × Path)) (k : Int) : Option Path :=
  (accounts.find? (fun e => (e.1 : Int) = k)).map (fun e => e.2)

/-- One sub-group loop of RearrangeJob.run: write accounts.get(acct) at the
slot of the fixed range matching each position of the chosen permutation; a
permutation longer than its range raises IndexError as in Python. -/
def writeSubgroup (accounts : List (Nat × Path)) :
    List Nat → List Int → List (Nat × Option Path) → Except String (List (Nat × Option Path))
  | _, [], m => Except.ok m
  | [], _ :: _, _ => Except.error "list index out of range"
  | s :: srest, a :: arest, m =>
    writeSubgroup accounts srest arest (dictSet m s (acctGet accounts a))

/-- The slot-to-source construction of RearrangeJob.run (lines 526-542): the
four sub-group loops in order, over the two account maps. -/
def build_slot_to_src (Aacc Bacc : List (Nat × Path)) (pk pn pd pr : List Int) :
    Except String (List (Nat × Option Path)) :=
  match writeSubgroup Aacc (SLOT_RANGES "ㄱ") pk [] with
  | Except.error e => Except.error e
  | Except.ok m1 =>
    match writeSubgroup Aacc (SLOT_RANGES "ㄴ") pn m1 with
    | Except.error e => Except.error e
    | Except.ok m2 =>
      match writeSubgroup Bacc (SLOT_RANGES "ㄷ") pd m2 with
      | Except.error e => Except.error e
      | Except.ok m3 => writeSubgroup Bacc (SLOT_RANGES "ㄹ") pr m3

/-! ### Run-scoped state

The run context object (the mutable dict shared with the caller) and the
engine state threaded through the run: filesystem, context, the local plans
list, the progress counter and trace, and the number of cancellation-flag
reads so far. -/

/-- The caller-shared context keys the job writes (absent key modelled as
none, as dict setdefault distinguishes absence). -/
structure RunCtx where
  uiLogs : Option (List String)
  resultDirs : Option (List String)
  deriving DecidableEq, Repr

/-- The engine state threaded through a run. -/
structure St where
  fs : FS
  ctx : RunCtx
  plans : List String
  done : Nat
  progress : List (Nat × String)
  cancelCalls : Nat
  deriving DecidableEq, Repr

/-- How a run ends: a plain return (normal completion), an early plain return
(the cancellation path), or a raised exception with its message. -/
inductive Flow
  | normal
  | earlyReturn
  | raised : String → Flow
  deriving DecidableEq, Repr

/-- total_ops of RearrangeJob.run: 10 + 12 * 5 * 2. -/
def TOTAL_OPS : Nat := 10 + 12 * 5 * 2

/-- The step closure of RearrangeJob.run: bump the counter and report
min(100, done*100/total) with a message (progress_cb is modelled as the
recorded trace). -/
def stepOp (msg : String) (s : St) : St :=
  let d := s.done + 1
  { s with done := d, progress := s.progress ++ [(min 100 (d * 100 / TOTAL_OPS), msg)] }

/-- One read of cancel_event.is_set(): the external schedule cancelAt says
what the flag reads on the k-th check of the run. -/
def checkCancel (cancelAt : Nat → Bool) (s : St) : Bool × St :=
  (cancelAt s.cancelCalls, { s with cancelCalls := s.cancelCalls + 1 })

/-! ### The per-file image operations -/

/-- A single quote character, for plan lines quoting the watermark text. -/
def sq : String := String.singleton (Char.ofNat 39)

/-- hex_to_rgba of rearrange_job.py: parse a hex colour (with optional hash
sign, 3-digit shorthand doubled), falling back to white; opacity is clamped
to 0..100 and scaled to 0..255 with truncation. -/
def hexDigitVal (c : Char) : Option Nat :=
  if c.isDigit then some (c.toNat - 48)
  else if 'a' ≤ c ∧ c ≤ 'f' then some (c.toNat - 87)
  else if 'A' ≤ c ∧ c ≤ 'F' then some (c.toNat - 55)
  else none

/-- Value of a nonempty list of hex digits, None when a character is not a
hex digit or the list is empty (int(s, 16) raising). -/
def hexListVal (cs : List Char) : Option Nat :=
  if cs = [] then none
  else cs.foldl (fun acc c =>
    match acc, hexDigitVal c with
    | some a, some d => some (16 * a + d)
    | _, _ => none) (some 0)

/-- hex_to_rgba of rearrange_job.py. -/
def hex_to_rgba (colorHex : String) (opacityPct : Int) : Nat × Nat × Nat × Nat :=
  let cs0 := (pyStrip colorHex).data
  let cs1 := if cs0.head? = some '#' then cs0.drop 1 else cs0
  let cs := if cs1.length = 3 then cs1.flatMap (fun c => [c, c]) else cs1
  let rgb : Nat × Nat × Nat :=
    match hexListVal (cs.take 2), hexListVal ((cs.drop 2).take 2),
        hexListVal ((cs.drop 4).take 2) with
    | some r, some g, some b => (r, g, b)
    | _, _, _ => (255, 255, 255)
  let a0 := (max 0 (min 100 opacityPct)).toNat
  (rgb.1, rgb.2.1, rgb.2.2, 255 * a0 / 100)

/-- place_xy of rearrange_job.py: position a text box by preset plus offsets
(Python floor division for centering). -/
def place_xy (imgW imgH textW textH : Int) (preset0 : String) (offX offY : Int) :
    Int × Int :=
  let preset := pyLower (if preset0 = "" then "bottom-right" else preset0)
  if preset = "top-left" then (offX, offY)
  else if preset = "top-right" then (imgW - textW - offX, offY)
  else if preset = "bottom-left" then (offX, imgH - textH - offY)
  else if preset = "center" then
    ((imgW - textW).fdiv 2 + offX, (imgH - textH).fdiv 2 + offY)
  else (imgW - textW - offX, imgH - textH - offY)

/-- watermark_image_inplace of rearrange_job.py: skip non-image extensions and
blank text; open and transpose the image (any exception from the imaging
library is caught: a skip line is appended and 0 returned); in dry mode append
a plan line, otherwise draw the text (pixel work abstracted by the oracle) and
save over the file.  Returns the new plans, the count contribution, and the
filesystem. -/
def watermark_image_inplace (o : ImgOracle) (path : Path) (cfg : WatermarkCfg)
    (plans : List String) (dry : Bool) (fs : FS) : List String × Nat × FS :=
  if !(isImageName (lastName path)) then (plans, 0, fs)
  else
    let text := pyStrip cfg.text
    if text = "" then (plans, 0, fs)
    else
      match o.decode (fs.node path) with
      | Except.error e =>
        (plans ++ ["[WM][skip] " ++ pathStr path ++ " (" ++ e ++ ")"], 0, fs)
      | Except.ok im0 =>
        let im := exifTranspose im0
        let strokeW : Int := if cfg.outline then cfg.outline_width else 0
        let twth := o.measure text cfg.font_path cfg.font_size strokeW
        let _xy := place_xy (im.width : Int) (im.height : Int) (twth.1 : Int) (twth.2 : Int)
          cfg.position cfg.offset_x cfg.offset_y
        let _fill := hex_to_rgba cfg.color cfg.opacity
        if dry then
          (plans ++ ["[DRY][WM] " ++ lastName path ++ "  <-  " ++ sq ++ text ++ sq
            ++ " pos=" ++ cfg.position ++ " size=" ++ natRepr cfg.font_size], 1, fs)
        else
          (plans, 1, fs.insertNode path (Node.file (o.encode im)))

/-- resize_image_inplace of rearrange_job.py: skip non-image extensions; parse
the preset; open the image (exceptions caught as a skip line and 0); in dry
mode append a plan line, otherwise resize-to-cover and save over the file. -/
def resize_image_inplace (o : ImgOracle) (path : Path) (cfg : ResizeCfg)
    (plans : List String) (dry : Bool) (fs : FS) : List String × Nat × FS :=
  if !(isImageName (lastName path)) then (plans, 0, fs)
  else
    let wh := parse_size cfg.preset
    match o.decode (fs.node path) with
    | Except.error e =>
      (plans ++ ["[RSZ][skip] " ++ pathStr path ++ " (" ++ e ++ ")"], 0, fs)
    | Except.ok im =>
      if dry then
        (plans ++ ["[DRY][RSZ] " ++ lastName path ++ " -> "
          ++ intRepr wh.1 ++ "x" ++ intRepr wh.2], 1, fs)
      else
        (plans, 1, fs.insertNode path (Node.file (o.encode (resize_cover im wh.1 wh.2))))

/-! ### The recursive batches over all images under a root -/

/-- The image files strictly under a root, in filesystem enumeration order
(Path.rglob filtered to files with recognised extensions).  In-place saves
never add or remove paths, so the snapshot taken at entry equals the lazy
walk the Python loop performs. -/
def imageFilesUnder (fs : FS) (root : Path) : List Path :=
  (fs.subtreeEntries root).filterMap (fun e =>
    match e.2 with
    | Node.file _ => if isImageName (lastName e.1) then some e.1 else none
    | Node.dir => none)

/-- One iteration of the rglob loop of resize_all_images. -/
def resizeFoldStep (o : ImgOracle) (cfg : ResizeCfg) (dry : Bool) (stepFn : St → St)
    (acc : Nat × St) (p : Path) : Nat × St :=
  let r := resize_image_inplace o p cfg acc.2.plans dry acc.2.fs
  let cnt := acc.1 + r.2.1
  let s := { acc.2 with plans := r.1, fs := r.2.2 }
  if cnt % 5 = 0 then (cnt, stepFn s) else (cnt, s)

/-- resize_all_images of rearrange_job.py. -/
def resize_all_images (o : ImgOracle) (root : Path) (cfg : ResizeCfg) (dry : Bool)
    (stepFn : St → St) (s : St) : Nat × St :=
  if s.fs.isFile root then
    let r := resize_image_inplace o root cfg s.plans dry s.fs
    let s1 := { s with plans := r.1, fs := r.2.2 }
    if r.2.1 ≠ 0 then (r.2.1, stepFn s1) else (r.2.1, s1)
  else
    (imageFilesUnder s.fs root).foldl (resizeFoldStep o cfg dry stepFn) (0, s)

/-- One iteration of the rglob loop of watermark_all_images. -/
def wmFoldStep (o : ImgOracle) (cfg : WatermarkCfg) (dry : Bool) (stepFn : St → St)
    (acc : Nat × St) (p : Path) : Nat × St :=
  let r := watermark_image_inplace o p cfg acc.2.plans dry acc.2.fs
  let cnt := acc.1 + r.2.1
  let s := { acc.2 with plans := r.1, fs := r.2.2 }
  if cnt % 5 = 0 then (cnt, stepFn s) else (cnt, s)

/-- watermark_all_images of rearrange_job.py. -/
def watermark_all_images (o : ImgOracle) (root : Path) (cfg : WatermarkCfg) (dry : Bool)
    (stepFn : St → St) (s : St) : Nat × St :=
  if s.fs.isFile root then
    let r := watermark_image_inplace o root cfg s.plans dry s.fs
    let s1 := { s with plans := r.1, fs := r.2.2 }
    if r.2.1 ≠ 0 then (r.2.1, stepFn s1) else (r.2.1, s1)
  else
    (imageFilesUnder s.fs root).foldl (wmFoldStep o cfg dry stepFn) (0, s)

/-! ### Sequences, day labels and destination parents -/

/-- weekdays of rearrange_job.py. -/
def weekdays : List String := ["월", "화", "수", "목", "금", "토", "일"]

/-- The SEQ table: the fixed post-reorder sequence of a (day-set, label)
pair.  The run only ever looks up the four listed keys. -/
def SEQ (day label : String) : List Nat :=
  if day = "월" then
    (if label = "유미" then [5, 1, 4, 2, 3]
     else if label = "상근" then [2, 1, 5, 4, 3] else [])
  else if day = "화" then
    (if label = "유미" then [3, 2, 5, 1, 4]
     else if label = "상근" then [4, 3, 2, 5, 1] else [])
  else []

/-- today_kor_daychar: the weekday character of the current day, supplied as
the external input todayIdx (datetime weekday, 0 to 6). -/
def today_kor_daychar (todayIdx : Fin 7) : String := weekdays.getD todayIdx.val ""

/-- day_of_week of rearrange_job.py. -/
def day_of_week (idx : Nat) : String := weekdays.getD (idx % 7) ""

/-- dow_of_idx of rearrange_job.py (weekdays.index). -/
def dow_of_idx (dow : String) : Nat := weekdays.indexOf dow

/-- next_of_now of rearrange_job.py. -/
def next_of_now (now : String) (nxt : Nat) : String := day_of_week (dow_of_idx now + nxt)

/-- label_parent_map of RearrangeJob.run: the destination parent folder name
of a label, tagged with the weekday of the run day. -/
def label_parent_name (todayChar label : String) : String :=
  if label = "유미" then "A그룹-" ++ todayChar
  else if label = "상근" then "B그룹-" ++ todayChar
  else ""

/-- get_dest_parent of RearrangeJob.run: an explicit existing path hosts
parentName/day; otherwise the target root hosts parentName/day/slotName, and
a blank name raises for that slot. -/
def get_dest_parent (targetRoot : Path) (targets : List TargetSlot)
    (parentName day : String) (slotIdx : Nat) : Except String Path :=
  match targets.get? (slotIdx - 1) with
  | none => Except.error "list index out of range"
  | some ts =>
    match ts.existing_path with
    | some ep => Except.ok (ep ++ [parentName, day])
    | none =>
      if ts.name = "" then
        Except.error ("Target slot " ++ natRepr slotIdx ++ " requires a name or existing path.")
      else Except.ok (targetRoot ++ [parentName, day, ts.name])

/-! ### copy_account_posts -/

/-- The dry-run resize plan lines of copy_account_posts for one post. -/
def dryResizePlan (fs : FS) (rcfg : ResizeCfg) (srcPath dstDir : Path) : List String :=
  if fs.isFile srcPath ∧ isImageName (lastName srcPath) then
    ["[DRY][RSZ] " ++ lastName srcPath ++ " -> (" ++ pathStr dstDir ++ ") " ++ rcfg.preset]
  else if fs.isDir srcPath then
    ["[DRY][RSZ] " ++ natRepr (imageFilesUnder fs srcPath).length ++ " images -> ("
      ++ pathStr dstDir ++ ") " ++ rcfg.preset]
  else []

/-- The dry-run watermark plan lines of copy_account_posts for one post. -/
def dryWmPlan (fs : FS) (srcPath dstDir : Path) : List String :=
  if fs.isFile srcPath ∧ isImageName (lastName srcPath) then
    ["[DRY][WM] " ++ lastName srcPath ++ " -> (" ++ pathStr dstDir ++ ")"]
  else if fs.isDir srcPath then
    ["[DRY][WM] " ++ natRepr (imageFilesUnder fs srcPath).length ++ " images -> ("
      ++ pathStr dstDir ++ ")"]
  else []

/-- One iteration of the post loop of copy_account_posts: name the
destination (stripping a leading numeric tag, or a missing placeholder),
then either append dry-run plan lines or copy the source and run the enabled
image stages, and report progress. -/
def copyPostStep (o : ImgOracle) (rcfg : ResizeCfg) (wcfg : WatermarkCfg) (dry : Bool)
    (finalParent : Path) (posts : List (Nat × Option Path)) (s : St) (e : Nat × Nat) : St :=
  let newIdx := e.1 + 1
  let srcPath := (posts.lookup e.2).getD none
  let dstName :=
    match srcPath with
    | some sp =>
      let baseName := if s.fs.isFile sp then stemOf (lastName sp) else lastName sp
      natRepr newIdx ++ ". " ++ pyStrip (stripPostNum baseName)
    | none => natRepr newIdx ++ ". (missing)"
  let dstDir := finalParent ++ [dstName]
  if dry then
    let s1 := { s with plans := s.plans ++
      ["[DRY] " ++ (match srcPath with | some sp => pathStr sp | none => "(missing)")
        ++ "  ->  " ++ pathStr dstDir] }
    let s2 :=
      match srcPath with
      | some sp =>
        if rcfg.enabled ∧ s1.fs.existsP sp then
          { s1 with plans := s1.plans ++ dryResizePlan s1.fs rcfg sp dstDir }
        else s1
      | none => s1
    let s3 :=
      match srcPath with
      | some sp =>
        if wcfg.enabled ∧ s2.fs.existsP sp then
          { s2 with plans := s2.plans ++ dryWmPlan s2.fs sp dstDir }
        else s2
      | none => s2
    stepOp ("Copying posts to: " ++ lastName finalParent) s3
  else
    let uniqueDst := ensure_unique_dir s.fs finalParent dstName
    let s1 :=
      match srcPath with
      | some sp =>
        if s.fs.existsP sp then
          if s.fs.isDir sp then { s with fs := copy_tree s.fs sp uniqueDst }
          else
            let fs1 := s.fs.mkdirParents uniqueDst
            { s with fs := fs1.copyFile sp (uniqueDst ++ [lastName sp]) }
        else { s with fs := s.fs.mkdirParents uniqueDst }
      | none => { s with fs := s.fs.mkdirParents uniqueDst }
    let s2 := if rcfg.enabled then
        (resize_all_images o uniqueDst rcfg false (stepOp "Resizing") s1).2
      else s1
    let s3 := if wcfg.enabled then
        (watermark_all_images o uniqueDst wcfg false (stepOp "Watermarking") s2).2
      else s2
    stepOp ("Copying posts to: " ++ lastName finalParent) s3

/-- copy_account_posts of RearrangeJob.run: normalize the posts of the source
account, prepare the destination parent (in a real run: unique name, mkdir,
and record it among the result directories in the shared context), then copy
the five posts in the given order. -/
def copy_account_posts (o : ImgOracle) (rcfg : ResizeCfg) (wcfg : WatermarkCfg)
    (srcAccountDir : Option Path) (destParent : Path) (order : List Nat) (dry : Bool)
    (s : St) : St :=
  let posts := collect_and_normalize_posts s.fs srcAccountDir
  let fpS : Path × St :=
    if dry then (destParent, s)
    else
      let fp := ensure_unique_dir s.fs destParent.dropLast (lastName destParent)
      let fs1 := s.fs.mkdirParents fp
      let dirs0 := s.ctx.resultDirs.getD []
      let dirs := if dirs0.contains (pathStr fp) then dirs0 else dirs0 ++ [pathStr fp]
      (fp, { s with fs := fs1, ctx := { s.ctx with resultDirs := some dirs } })
  (order.enum).foldl (copyPostStep o rcfg wcfg dry fpS.1 posts) fpS.2

/-! ### The slot loops and the full run -/

/-- The body of one day-set loop of RearrangeJob.run: for each slot in the
range, first read the cancellation flag (a set flag returns early, cleanly),
then resolve the destination parent (a blank unnamed slot raises) and copy
the posts of the mapped source account. -/
def slotLoop (o : ImgOracle) (cancelAt : Nat → Bool) (rcfg : ResizeCfg) (wcfg : WatermarkCfg)
    (targetRoot : Path) (targets : List TargetSlot) (slotToSrc : List (Nat × Option Path))
    (parentName day : String) (dayOrder : List Nat) (dry : Bool) :
    List Nat → St → St × Flow
  | [], s => (s, Flow.normal)
  | slot :: rest, s =>
    let cs := checkCancel cancelAt s
    if cs.1 then (cs.2, Flow.earlyReturn)
    else
      match get_dest_parent targetRoot targets parentName day slot with
      | Except.error e => (cs.2, Flow.raised e)
      | Except.ok destParent =>
        slotLoop o cancelAt rcfg wcfg targetRoot targets slotToSrc parentName day dayOrder dry rest
          (copy_account_posts o rcfg wcfg ((slotToSrc.lookup slot).getD none) destParent
            dayOrder dry cs.2)

/-- Continue with the next loop only on normal fall-through; an early return
or a raised exception short-circuits. -/
def andThen (r : St × Flow) (k : St → St × Flow) : St × Flow :=
  match r with
  | (s, Flow.normal) => k s
  | other => other

/-- Run a fallible computation: an error raises out of the run with the
current state. -/
def onOk {α : Type} (r : Except String α) (s : St) (k : α → St × Flow) : St × Flow :=
  match r with
  | Except.error e => (s, Flow.raised e)
  | Except.ok a => k a

/-- Python repr of a list of naturals, for the sub-group header lines. -/
def listRepr (l : List Nat) : String :=
  "[" ++ String.intercalate ", " (l.map natRepr) ++ "]"

/-- A sub-group permutation header line of the mapping summary. -/
def permLine (tag : String) (perm : List Int) (g : String) : String :=
  tag ++ ": " ++ String.intercalate "-" (perm.map intRepr) ++ "  -> slots " ++ listRepr (SLOT_RANGES g)

/-- Python format slot:2d — right-aligned in width two. -/
def pad2 (n : Nat) : String := if n < 10 then " " ++ natRepr n else natRepr n

/-- One slot-to-source line of the mapping summary. -/
def slotLine (slot : Nat) (src : Option Path) : String :=
  "slot " ++ pad2 slot ++ "  <-  "
    ++ (match src with | some p => pathStr p | none => "(missing)")

/-- The engine state a run starts from. -/
def initSt (fs : FS) (ctx : RunCtx) : St :=
  { fs := fs, ctx := ctx, plans := [], done := 0, progress := [], cancelCalls := 0 }

/-- RearrangeJob.run.  External inputs: the imaging oracle, the schedule of
cancellation-flag reads, the pick function of the seeded random generator,
and the current weekday.  Returns the final engine state and how the run
ended.  Note the early returns hand back the state as it stands: in
particular the local plans list is only copied into the caller-shared
context on the normal path. -/
def rearrange_run (o : ImgOracle) (cancelAt : Nat → Bool)
    (rngPick : List (List Int) → List Int) (todayIdx : Fin 7)
    (params : Params) (fs0 : FS) (ctx0 : RunCtx) : St × Flow :=
  let targets : List TargetSlot :=
    params.targets.map (fun it => { name := pyStrip it.name, existing_path := it.path })
  let dry := params.dry_run
  let cs := checkCancel cancelAt (initSt fs0 ctx0)
  if cs.1 then (cs.2, Flow.earlyReturn)
  else if targets.length ≠ 12 then (cs.2, Flow.raised "Exactly 12 targets required.")
  else if !(fs0.existsP params.A_root) || !(fs0.existsP params.B_root) then
    (cs.2, Flow.raised "A_root or B_root does not exist.")
  else if !(fs0.existsP params.target_root) then
    (cs.2, Flow.raised "Target root does not exist.")
  else
    let rng : Option (List (List Int) → List Int) :=
      if params.perm_mode = "random" then some rngPick else none
    let s := if params.perm_mode = "random" then
        { cs.2 with plans := cs.2.plans ++
          ["(info) Manual subgroup selections are ignored in Randomize mode."] }
      else cs.2
    let Aacc := find_account_dirs s.fs params.A_root
    let Bacc := find_account_dirs s.fs params.B_root
    onOk (choose_perm (1, 2, 3) params.perm_mode params.perm_k rng) s (fun permK =>
    onOk (choose_perm (4, 5, 6) params.perm_mode params.perm_n rng) s (fun permN =>
    onOk (choose_perm (1, 2, 3) params.perm_mode params.perm_d rng) s (fun permD =>
    onOk (choose_perm (4, 5, 6) params.perm_mode params.perm_r rng) s (fun permR =>
    onOk (build_slot_to_src Aacc Bacc permK permN permD permR) s (fun slotToSrc =>
      let s := if dry then
          { s with plans := s.plans ++ ["==== DRY RUN PLAN (no changes made) ===="] }
        else s
      let s := { s with plans := s.plans ++
        ["Permutation mode = " ++ params.perm_mode ++
          (if params.perm_mode = "random" then " (seed=" ++ params.rand_seed ++ ")" else "")] }
      let s := { s with plans := s.plans ++
        ["==== SUBGROUP PERMUTATIONS (selected/random result) ====",
         permLine "ㄱ (A1-3)" permK "ㄱ", permLine "ㄴ (A4-6)" permN "ㄴ",
         permLine "ㄷ (B1-3)" permD "ㄷ", permLine "ㄹ (B4-6)" permR "ㄹ",
         "==== SLOT → SOURCE ACCOUNT ===="] }
      let s := { s with plans := s.plans ++
        ((List.range' 1 12).map (fun slot => slotLine slot ((slotToSrc.lookup slot).getD none))) }
      let todayChar := today_kor_daychar todayIdx
      let dayA := if todayChar = "월" then "월"
        else if todayChar = "금" then "일" else next_of_now todayChar 1
      let dayB := if todayChar = "월" then "화"
        else if todayChar = "금" then "월" else next_of_now todayChar 2
      let s := { s with plans := s.plans ++
        ["DEST DAY LABELS: " ++ dayA ++ " (slots 1–6), " ++ dayB ++ " (slots 7–12)"] }
      let r := slotLoop o cancelAt params.resize params.watermark params.target_root targets
        slotToSrc (label_parent_name todayChar "유미") dayA (SEQ "월" "유미") dry
        [1, 2, 3, 4, 5, 6] s
      let r := andThen r (fun s =>
        slotLoop o cancelAt params.resize params.watermark params.target_root targets
          slotToSrc (label_parent_name todayChar "유미") dayB (SEQ "화" "유미") dry
          [7, 8, 9, 10, 11, 12] s)
      let r := andThen r (fun s =>
        slotLoop o cancelAt params.resize params.watermark params.target_root targets
          slotToSrc (label_parent_name todayChar "상근") dayA (SEQ "월" "상근") dry
          [1, 2, 3, 4, 5, 6] s)
      let r := andThen r (fun s =>
        slotLoop o cancelAt params.resize params.watermark params.target_root targets
          slotToSrc (label_parent_name todayChar "상근") dayB (SEQ "화" "상근") dry
          [7, 8, 9, 10, 11, 12] s)
      andThen r (fun s =>
        let s := { s with ctx := { s.ctx with
          uiLogs := some ((s.ctx.uiLogs.getD []) ++ s.plans) } }
        (stepOp "Done." s, Flow.normal)))))))

/-- The worker body of AppController.run_job: ok stays false exactly when the
job body raised; the finally block fires done_cb exactly once, with the pair
(ok, error message). -/
def controller_done (r : St × Flow) : Bool × String :=
  match r.2 with
  | Flow.raised e => (false, e)
  | _ => (true, "")

/-! ### Spec-side predicates and concrete fixtures used by the theorems -/

/-- A preset string of the well-formed shape: the lowered string splits on the
letter x into exactly two parts, both accepted by Python int. -/
def presetWellFormed (s : String) : Prop :=
  ∃ a b, pySplit 'x' (pyLower s) = [a, b] ∧
    (pyIntParse a).isSome = true ∧ (pyIntParse b).isSome = true

/-- Twelve targets named T1..T12, each with an explicit existing path. -/
def fixTargets : List RawTarget :=
  (List.range' 1 12).map (fun i =>
    { name := "T" ++ natRepr i, path := some ["tgt", "T" ++ natRepr i] })

/-- A small filesystem holding the two pool roots and the target root. -/
def fixFS : FS := ⟨[(["A"], Node.dir), (["B"], Node.dir), (["tgt"], Node.dir)]⟩

/-- A watermark configuration with watermarking disabled. -/
def fixWm : WatermarkCfg :=
  { enabled := false, text := "", font_path := "", font_size := 36,
    position := "bottom-right", offset_x := 16, offset_y := 16, color := "#FFFFFF",
    opacity := 50, outline := true, outline_width := 2 }

/-- A valid dry-run parameter record with manual permutations. -/
def fixParams : Params :=
  { A_root := ["A"], B_root := ["B"], target_root := ["tgt"], dry_run := true,
    perm_mode := "manual", perm_k := "3-1-2", perm_n := "6-4-5", perm_d := "2-3-1",
    perm_r := "5-6-4", rand_seed := "", targets := fixTargets,
    resize := { enabled := false, preset := "1080x1080" }, watermark := fixWm }

/-- An imaging oracle whose decoder always fails. -/
def fixOracle : ImgOracle :=
  { decode := fun _ => Except.error "cannot identify image file",
    encode := fun _ => 0, measure := fun _ _ _ _ => (0, 0) }

/-- A caller context with neither shared key present yet. -/
def fixCtx : RunCtx := { uiLogs := none, resultDirs := none }

/-- Decidable equality of Except results, used to evaluate fallible
computations at concrete inputs. -/
instance {ε α : Type} [DecidableEq ε] [DecidableEq α] : DecidableEq (Except ε α) := fun x y =>
  match x, y with
  | Except.ok a, Except.ok b =>
    if h : a = b then isTrue (congrArg Except.ok h)
    else isFalse (fun hc => h (by injection hc))
  | Except.error e, Except.error f =>
    if h : e = f then isTrue (congrArg Except.error h)
    else isFalse (fun hc => h (by injection hc))
  | Except.ok _, Except.error _ => isFalse (fun hc => by injection hc)
  | Except.error _, Except.ok _ => isFalse (fun hc => by injection hc)

/-- A pool root with two claimable account folders, a name that repeats an
already claimed number, and a stray file. -/
def fsPool : FS :=
  ⟨[(["A"], Node.dir), (["A", "acc2"], Node.dir), (["A", "acc1"], Node.dir),
    (["A", "note.txt"], Node.file 7), (["A", "acc2b"], Node.dir)]⟩

/-- A directory holding one image file, for the per-file failure witness. -/
def wmFS : FS := ⟨[(["d"], Node.dir), (["d", "x.jpg"], Node.file 3)]⟩

/-- A watermark configuration with non-blank text. -/
def fixWmText : WatermarkCfg := { fixWm with enabled := true, text := "wm" }

/-! ## Theorems -/

/-- C10: parsing the resize preset never raises: every preset string that is
not of the form int-x-int (empty, wrong separator, non-numeric parts, or
extra parts) makes parse_size return the default (1080, 1080), so an
unparsable preset silently resizes to 1080 by 1080 instead of failing. -/
theorem C10_parse_size_default (s : String) (h : ¬ presetWellFormed s) :
    parse_size s = (1080, 1080) := by
  unfold parse_size
  split <;> try rfl
  next a b heq =>
    split <;> try rfl
    next w v hw hv => exact absurd ⟨a, b, heq, by simp [hw], by simp [hv]⟩ h

/-- Witness for C10 at the concrete preset string "square". -/
theorem C10_witness :
    ¬ presetWellFormed "square" ∧ parse_size "square" = (1080, 1080) := by
  have h : ¬ presetWellFormed "square" := by
    rintro ⟨a, b, hab, -, -⟩
    have hs : pySplit 'x' (pyLower "square") = ["square"] := by decide
    rw [hs] at hab
    simp at hab
  exact ⟨h, C10_parse_size_default "square" h⟩

/-- C9: for every source image with positive width and height and every
preset parsed as W by H, the resize stage (EXIF orientation applied, both
sides scaled by the single cover factor, then center-cropped) produces an
image of exactly W by H pixels. -/
theorem C9_resize_cover_dims (im : Img) (tw th : Nat)
    (hw : 0 < im.width) (hh : 0 < im.height) :
    (resize_cover im (tw : Int) (th : Int)).width = tw ∧
    (resize_cover im (tw : Int) (th : Int)).height = th := by
  have hew : (exifTranspose im).width ≠ 0 ∧ (exifTranspose im).height ≠ 0 := by
    unfold exifTranspose
    split <;> simp <;> omega
  unfold resize_cover
  rw [if_neg (by push_neg; exact hew)]
  constructor <;> simp

/-- Witness for C9 at a concrete 100 by 50 image and the 1080 by 1080 box. -/
theorem C9_witness :
    (0 : Nat) < 100 ∧ (0 : Nat) < 50 ∧
    (resize_cover ⟨100, 50, 1, "JPEG"⟩ (1080 : Int) (1080 : Int)).width = 1080 ∧
    (resize_cover ⟨100, 50, 1, "JPEG"⟩ (1080 : Int) (1080 : Int)).height = 1080 := by
  have h := C9_resize_cover_dims ⟨100, 50, 1, "JPEG"⟩ 1080 1080 (by decide) (by decide)
  exact ⟨by decide, by decide, h.1, h.2⟩

/-! ### Decimal rendering: agreement with Nat.digits and injectivity -/

theorem natReprAux_eq_digits :
    ∀ (fuel n : Nat), 0 < n → n ≤ fuel →
      natReprAux fuel n = ((Nat.digits 10 n).map digitChar).reverse := by
  intro fuel
  induction fuel with
  | zero => intro n hn hf; omega
  | succ f ih =>
    intro n hn hf
    by_cases h : n < 10
    · have hd : Nat.digits 10 n = [n] := by
        rw [Nat.digits_def' (by norm_num) hn, Nat.mod_eq_of_lt h,
          Nat.div_eq_of_lt h, Nat.digits_zero]
      simp [natReprAux, h, hd]
    · have h10 : 10 ≤ n := by omega
      have hq : 0 < n / 10 := Nat.div_pos h10 (by norm_num)
      have hlt : n / 10 < n := Nat.div_lt_self hn (by norm_num)
      have hqf : n / 10 ≤ f := by omega
      rw [Nat.digits_def' (b := 10) (by norm_num) hn]
      simp only [natReprAux, if_neg h, List.map_cons, List.reverse_cons]
      rw [ih (n / 10) hq hqf]

theorem digitChar_inj_lt : ∀ d, d < 10 → ∀ e, e < 10 → digitChar d = digitChar e → d = e := by
  decide

theorem map_digitChar_inj :
    ∀ (l₁ l₂ : List Nat), (∀ x ∈ l₁, x < 10) → (∀ x ∈ l₂, x < 10) →
      l₁.map digitChar = l₂.map digitChar → l₁ = l₂ := by
  intro l₁
  induction l₁ with
  | nil => intro l₂ _ _ h; cases l₂ <;> simp_all
  | cons a as ih =>
    intro l₂ h₁ h₂ h
    cases l₂ with
    | nil => simp_all
    | cons b bs =>
      simp only [List.map_cons, List.cons.injEq] at h
      have ha : a = b :=
        digitChar_inj_lt a (h₁ a (by simp)) b (h₂ b (by simp)) h.1
      have hs : as = bs :=
        ih bs (fun x hx => h₁ x (by simp [hx])) (fun x hx => h₂ x (by simp [hx])) h.2
      rw [ha, hs]

theorem natRepr_inj : ∀ {m n : Nat}, natRepr m = natRepr n → m = n := by
  intro m n h
  have hdata : natReprAux (m + 1) m = natReprAux (n + 1) n := by
    have := congrArg String.data h
    simpa [natRepr] using this
  rcases Nat.eq_zero_or_pos m with hm | hm <;> rcases Nat.eq_zero_or_pos n with hn | hn
  · omega
  · exfalso
    subst hm
    rw [natReprAux_eq_digits (n + 1) n hn (by omega)] at hdata
    have h0 : ([digitChar 0] : List Char) = ((Nat.digits 10 n).map digitChar).reverse := by
      simpa [natReprAux] using hdata
    have hmap : (Nat.digits 10 n).map digitChar = [digitChar 0] := by
      have := congrArg List.reverse h0
      simpa using this.symm
    rcases hds : Nat.digits 10 n with - | ⟨d, ds⟩
    · simp [hds] at hmap
    · rw [hds] at hmap
      simp only [List.map_cons, List.cons.injEq] at hmap
      have hd10 : d < 10 := Nat.digits_lt_base (by norm_num) (by rw [hds]; simp)
      have hd0 : d = 0 := digitChar_inj_lt d hd10 0 (by norm_num) hmap.1
      have hds0 : ds = [] := by
        cases ds with
        | nil => rfl
        | cons x xs => simp at hmap
      have hdig0 : Nat.digits 10 n = [0] := by rw [hds, hds0, hd0]
      have hzero : n = 0 := by
        have hof := Nat.ofDigits_digits 10 n
        rw [hdig0] at hof
        simpa [Nat.ofDigits] using hof.symm
      omega
  · exfalso
    subst hn
    rw [natReprAux_eq_digits (m + 1) m hm (by omega)] at hdata
    have h0 : ([digitChar 0] : List Char) = ((Nat.digits 10 m).map digitChar).reverse := by
      simpa [natReprAux] using hdata.symm
    have hmap : (Nat.digits 10 m).map digitChar = [digitChar 0] := by
      have := congrArg List.reverse h0
      simpa using this.symm
    rcases hds : Nat.digits 10 m with - | ⟨d, ds⟩
    · simp [hds] at hmap
    · rw [hds] at hmap
      simp only [List.map_cons, List.cons.injEq] at hmap
      have hd10 : d < 10 := Nat.digits_lt_base (by norm_num) (by rw [hds]; simp)
      have hd0 : d = 0 := digitChar_inj_lt d hd10 0 (by norm_num) hmap.1
      have hds0 : ds = [] := by
        cases ds with
        | nil => rfl
        | cons x xs => simp at hmap
      have hdig0 : Nat.digits 10 m = [0] := by rw [hds, hds0, hd0]
      have hzero : m = 0 := by
        have hof := Nat.ofDigits_digits 10 m
        rw [hdig0] at hof
        simpa [Nat.ofDigits] using hof.symm
      omega
  · rw [natReprAux_eq_digits (m + 1) m hm (by omega),
      natReprAux_eq_digits (n + 1) n hn (by omega)] at hdata
    have hmap := List.reverse_injective hdata
    have hdig := map_digitChar_inj (Nat.digits 10 m) (Nat.digits 10 n)
      (fun x hx => Nat.digits_lt_base (by norm_num) hx)
      (fun x hx => Nat.digits_lt_base (by norm_num) hx) hmap
    have := congrArg (Nat.ofDigits 10) hdig
    simpa [Nat.ofDigits_digits] using this

theorem natReprAux_ne_nil (n : Nat) : natReprAux (n + 1) n ≠ [] := by
  by_cases h : n < 10 <;> simp [natReprAux, h]

theorem natRepr_length_pos (n : Nat) : 0 < (natRepr n).length := by
  have := natReprAux_ne_nil n
  simp only [natRepr, String.length]
  cases hx : natReprAux (n + 1) n with
  | nil => exact absurd hx this
  | cons c cs => simp

theorem uniqueCand_inj {base : String} :
    ∀ {x y : Nat}, uniqueCand base x = uniqueCand base y → x = y := by
  intro x y h
  unfold uniqueCand at h
  by_cases hx : x = 0 <;> by_cases hy : y = 0
  · omega
  · rw [if_pos hx, if_neg hy] at h
    have := congrArg String.length h
    rw [String.length_append, String.length_append, String.length_append] at this
    have := natRepr_length_pos (y + 1)
    omega
  · rw [if_neg hx, if_pos hy] at h
    have := congrArg String.length h
    rw [String.length_append, String.length_append, String.length_append] at this
    have := natRepr_length_pos (x + 1)
    omega
  · rw [if_neg hx, if_neg hy] at h
    have hdata := congrArg String.data h
    simp only [String.data_append] at hdata
    have h1 := List.append_cancel_right hdata
    have h2 := List.append_cancel_left h1
    have := natRepr_inj (String.ext h2)
    omega

/-! ### C6: the destination collision loop -/

theorem mem_fst_of_existsP (fs : FS) (p : Path) (h : fs.existsP p = true) :
    p ∈ fs.entries.map Prod.fst := by
  unfold FS.existsP FS.node at h
  rcases hf : fs.entries.find? (fun e => decide (e.1 = p)) with - | e
  · rw [hf] at h; simp at h
  · have hm := List.mem_of_find?_eq_some hf
    have hp := List.find?_some hf
    simp only [decide_eq_true_eq] at hp
    exact hp ▸ List.mem_map_of_mem Prod.fst hm

theorem exists_free_index (fs : FS) (parent : Path) (base : String) :
    ∃ j, j ≤ fs.entries.length ∧ fs.existsP (parent ++ [uniqueCand base j]) = false := by
  by_contra hcon
  push_neg at hcon
  have hall : ∀ j, j ≤ fs.entries.length →
      fs.existsP (parent ++ [uniqueCand base j]) = true := by
    intro j hj
    have := hcon j hj
    revert this
    cases fs.existsP (parent ++ [uniqueCand base j]) <;> simp
  have hsub : ((List.range (fs.entries.length + 1)).map
      (fun j => parent ++ [uniqueCand base j])) ⊆ fs.entries.map Prod.fst := by
    intro q hq
    simp only [List.mem_map, List.mem_range] at hq
    obtain ⟨j, hj, rfl⟩ := hq
    exact mem_fst_of_existsP _ _ (hall j (by omega))
  have hnd : ((List.range (fs.entries.length + 1)).map
      (fun j => parent ++ [uniqueCand base j])).Nodup := by
    refine List.Nodup.map_on ?_ (List.nodup_range _)
    intro x _ y _ hxy
    have hu : uniqueCand base x = uniqueCand base y := by
      have := List.append_cancel_left hxy
      simpa using this
    exact uniqueCand_inj hu
  have hle := (hnd.subperm hsub).length_le
  simp at hle

theorem ensureUniqueLoop_spec (fs : FS) (parent : Path) (base : String) :
    ∀ (k fuel j : Nat), k ≤ fuel →
      fs.existsP (parent ++ [uniqueCand base (j + k)]) = false →
      (∀ m, m < k → fs.existsP (parent ++ [uniqueCand base (j + m)]) = true) →
      ensureUniqueLoop fs parent base j fuel = parent ++ [uniqueCand base (j + k)] := by
  intro k
  induction k with
  | zero =>
    intro fuel j _ hfree _
    cases fuel with
    | zero => simp [ensureUniqueLoop]
    | succ f =>
      simp only [ensureUniqueLoop]
      rw [if_neg (by simp_all)]
      simp
  | succ kk ih =>
    intro fuel j hk hfree hocc
    cases fuel with
    | zero => omega
    | succ f =>
      simp only [ensureUniqueLoop]
      rw [if_pos (by simpa using hocc 0 (by omega))]
      have h1 : j + 1 + kk = j + (kk + 1) := by omega
      rw [ih f (j + 1) (by omega) (by rw [h1]; exact hfree)
        (fun m hm => by
          have h2 : j + 1 + m = j + (m + 1) := by omega
          rw [h2]; exact hocc (m + 1) (by omega))]
      rw [h1]

/-- C6: for every parent directory and desired name, the destination resolver
returns a path under that parent that does not exist at call time: the
desired name itself if free, otherwise the first of name-(2), name-(3), ...
(n increasing from 2) that does not exist; hence a second destination with
the same desired name receives the suffix " (2)" and a third " (3)". -/
theorem C6_ensure_unique_dir (fs : FS) (parent : Path) (base : String) :
    fs.existsP (ensure_unique_dir fs parent base) = false ∧
    (fs.existsP (parent ++ [base]) = false →
      ensure_unique_dir fs parent base = parent ++ [base]) ∧
    (fs.existsP (parent ++ [base]) = true →
      ∃ n, 2 ≤ n ∧
        ensure_unique_dir fs parent base =
          parent ++ [base ++ " (" ++ natRepr n ++ ")"] ∧
        fs.existsP (parent ++ [base ++ " (" ++ natRepr n ++ ")"]) = false ∧
        (∀ m, 2 ≤ m → m < n →
          fs.existsP (parent ++ [base ++ " (" ++ natRepr m ++ ")"]) = true)) := by
  have hex : ∃ j, fs.existsP (parent ++ [uniqueCand base j]) = false := by
    obtain ⟨j, -, hj⟩ := exists_free_index fs parent base
    exact ⟨j, hj⟩
  set k := Nat.find hex with hkdef
  have hkfree : fs.existsP (parent ++ [uniqueCand base k]) = false := Nat.find_spec hex
  have hkmin : ∀ m, m < k → fs.existsP (parent ++ [uniqueCand base m]) = true := by
    intro m hm
    have := Nat.find_min hex hm
    revert this
    cases fs.existsP (parent ++ [uniqueCand base m]) <;> simp
  have hkle : k ≤ fs.entries.length := by
    obtain ⟨j, hjle, hj⟩ := exists_free_index fs parent base
    exact le_trans (Nat.find_min' hex hj) hjle
  have hresult : ensure_unique_dir fs parent base = parent ++ [uniqueCand base k] := by
    unfold ensure_unique_dir
    have := ensureUniqueLoop_spec fs parent base k (fs.entries.length + 1) 0
      (by omega) (by simpa using hkfree) (fun m hm => by simpa using hkmin m hm)
    simpa using this
  refine ⟨by rw [hresult]; exact hkfree, ?_, ?_⟩
  · intro hbase
    have h0 : fs.existsP (parent ++ [uniqueCand base 0]) = false := by
      simpa [uniqueCand] using hbase
    have hk0 : k = 0 := by
      have := Nat.find_min' hex h0
      omega
    rw [hresult, hk0]
    simp [uniqueCand]
  · intro hbase
    have hk0 : k ≠ 0 := by
      intro h0
      rw [h0] at hkfree
      simp [uniqueCand] at hkfree
      rw [hkfree] at hbase
      exact Bool.false_ne_true hbase
    refine ⟨k + 1, by omega, ?_, ?_, ?_⟩
    · rw [hresult]
      simp [uniqueCand, hk0]
    · have : uniqueCand base k = base ++ " (" ++ natRepr (k + 1) ++ ")" := by
        simp [uniqueCand, hk0]
      rw [← this]
      exact hkfree
    · intro m hm2 hmk
      have : uniqueCand base (m - 1) = base ++ " (" ++ natRepr m ++ ")" := by
        have hm1 : m - 1 ≠ 0 := by omega
        have hm1' : m - 1 + 1 = m := by omega
        simp [uniqueCand, hm1, hm1']
      rw [← this]
      exact hkmin (m - 1) (by omega)

/-- Witness for C6: with "x" and "x (2)" both present, the resolver yields
"x (3)", and the returned path does not exist. -/
theorem C6_witness :
    ensure_unique_dir ⟨[(["p", "x"], Node.dir), (["p", "x (2)"], Node.dir)]⟩ ["p"] "x"
      = ["p", "x (3)"] ∧
    FS.existsP ⟨[(["p", "x"], Node.dir), (["p", "x (2)"], Node.dir)]⟩
      (ensure_unique_dir ⟨[(["p", "x"], Node.dir), (["p", "x (2)"], Node.dir)]⟩ ["p"] "x")
      = false :=
  ⟨by decide, (C6_ensure_unique_dir ⟨[(["p", "x"], Node.dir), (["p", "x (2)"], Node.dir)]⟩ ["p"] "x").1⟩

/-! ### C8: account discovery -/

theorem lookup_eq_none_of_forall {α : Type} :
    ∀ (m : List (Nat × α)) (k : Nat), (∀ e ∈ m, e.1 ≠ k) → m.lookup k = none := by
  intro m
  induction m with
  | nil => intro k _; rfl
  | cons e rest ih =>
    intro k h
    have hek : k ≠ e.1 := fun hc => h e (by simp) hc.symm
    simp only [List.lookup]
    rw [show (k == e.1) = false by simpa using hek]
    exact ih k (fun x hx => h x (by simp [hx]))

theorem not_mem_keys_of_lookup_none {α : Type} :
    ∀ (m : List (Nat × α)) (k : Nat), m.lookup k = none → k ∉ m.map Prod.fst := by
  intro m
  induction m with
  | nil => intro k _; simp
  | cons e rest ih =>
    intro k h
    simp only [List.lookup] at h
    by_cases hek : k = e.1
    · rw [show (k == e.1) = true by simpa using hek] at h
      simp at h
    · rw [show (k == e.1) = false by simpa using hek] at h
      simp only [List.map_cons, List.mem_cons]
      push_neg
      exact ⟨hek, ih k h⟩

theorem lookup_append_single {α : Type} :
    ∀ (m : List (Nat × α)) (k j : Nat) (v : α),
      (m ++ [(k, v)]).lookup j =
        (match m.lookup j with
         | some w => some w
         | none => if j = k then some v else none) := by
  intro m
  induction m with
  | nil =>
    intro k j v
    simp only [List.nil_append, List.lookup]
    by_cases h : j = k
    · simp [h]
    · rw [show (j == k) = false by simpa using h, if_neg h]
  | cons e rest ih =>
    intro k j v
    simp only [List.cons_append, List.lookup]
    by_cases h : j = e.1
    · simp [h]
    · simp only [show (j == e.1) = false by simpa using h]
      exact ih k j v

theorem accountStep_none (root : Path) (acc : List (Nat × Path)) (n : String)
    (h : parseAccountNum n = none) : accountStep root acc n = acc := by
  unfold accountStep
  rw [h]

theorem accountStep_some (root : Path) (acc : List (Nat × Path)) (n : String) (k' : Nat)
    (h : parseAccountNum n = some k') :
    accountStep root acc n =
      if 1 ≤ k' ∧ k' ≤ 6 ∧ (acc.lookup k').isNone = true then
        acc ++ [(k', root ++ [n])]
      else acc := by
  unfold accountStep
  rw [h]

theorem accountFold_lookup (root : Path) :
    ∀ (l : List String) (acc : List (Nat × Path)) (k : Nat), 1 ≤ k → k ≤ 6 →
      (l.foldl (accountStep root) acc).lookup k =
        (match acc.lookup k with
         | some v => some v
         | none =>
           (l.find? (fun n => parseAccountNum n == some k)).map (fun n => root ++ [n])) := by
  intro l
  induction l with
  | nil =>
    intro acc k _ _
    simp only [List.foldl_nil, List.find?_nil]
    cases acc.lookup k <;> rfl
  | cons n rest ih =>
    intro acc k hk1 hk6
    simp only [List.foldl_cons, List.find?_cons]
    rcases hp : parseAccountNum n with - | k'
    · rw [accountStep_none root acc n hp, ih acc k hk1 hk6]
      rcases acc.lookup k with - | v <;> rfl
    · by_cases hkk : k' = k
      · subst hkk
        rw [show (some k' == some k') = true by simp]
        rcases hlk : acc.lookup k' with - | v
        · have hstep : accountStep root acc n = acc ++ [(k', root ++ [n])] := by
            rw [accountStep_some root acc n k' hp, if_pos ⟨hk1, hk6, by rw [hlk]; rfl⟩]
          rw [hstep, ih _ k' hk1 hk6, lookup_append_single, hlk]
          simp
        · have hstep : accountStep root acc n = acc := by
            rw [accountStep_some root acc n k' hp, if_neg (by rw [hlk]; simp)]
          rw [hstep, ih _ k' hk1 hk6, hlk]
      · rw [show (some k' == some k) = false by simp [hkk]]
        have hlk2 : (accountStep root acc n).lookup k = acc.lookup k := by
          rw [accountStep_some root acc n k' hp]
          split
          · rw [lookup_append_single]
            rcases acc.lookup k with - | v
            · rw [if_neg (fun hc => hkk hc.symm)]
            · rfl
          · rfl
        rw [ih _ k hk1 hk6, hlk2]

theorem accountFold_inv (root : Path) :
    ∀ (l : List String) (acc : List (Nat × Path)),
      (∀ e ∈ acc, 1 ≤ e.1 ∧ e.1 ≤ 6) → (acc.map Prod.fst).Nodup →
      (∀ e ∈ l.foldl (accountStep root) acc, 1 ≤ e.1 ∧ e.1 ≤ 6) ∧
      ((l.foldl (accountStep root) acc).map Prod.fst).Nodup := by
  intro l
  induction l with
  | nil => intro acc hb hd; exact ⟨hb, hd⟩
  | cons n rest ih =>
    intro acc hb hd
    simp only [List.foldl_cons]
    refine ih (accountStep root acc n) ?_ ?_
    · intro e he
      rcases hp : parseAccountNum n with - | k'
      · rw [accountStep_none root acc n hp] at he
        exact hb e he
      · rw [accountStep_some root acc n k' hp] at he
        by_cases hc : 1 ≤ k' ∧ k' ≤ 6 ∧ (acc.lookup k').isNone = true
        · rw [if_pos hc] at he
          rcases List.mem_append.mp he with h1 | h1
          · exact hb e h1
          · have : e = (k', root ++ [n]) := by simpa using h1
            rw [this]
            exact ⟨hc.1, hc.2.1⟩
        · rw [if_neg hc] at he
          exact hb e he
    · rcases hp : parseAccountNum n with - | k'
      · rw [accountStep_none root acc n hp]
        exact hd
      · rw [accountStep_some root acc n k' hp]
        by_cases hc : 1 ≤ k' ∧ k' ≤ 6 ∧ (acc.lookup k').isNone = true
        · rw [if_pos hc]
          have hnone : acc.lookup k' = none := by
            rcases h : acc.lookup k' with - | v
            · rfl
            · rw [h] at hc; simp at hc
          have hnotmem := not_mem_keys_of_lookup_none acc k' hnone
          simp [List.nodup_append, hd, hnotmem]
        · rw [if_neg hc]
          exact hd

/-- C8: for every pool root, account discovery scans direct sub-directories
in sorted name order, parses the first digit run of each name, and records a
directory under n only when n lies in 1..6 and is not already claimed by an
earlier-named directory; the map has at most one entry per number,
non-directories and digitless names are skipped (they never enter the
candidate list), and a non-existent root yields the empty map. -/
theorem C8_find_account_dirs_spec (fs : FS) (root : Path) :
    (fs.existsP root = false → find_account_dirs fs root = []) ∧
    (fs.existsP root = true → ∀ k, 1 ≤ k → k ≤ 6 →
      (find_account_dirs fs root).lookup k =
        ((sortedSubdirs fs root).find? (fun n => parseAccountNum n == some k)).map
          (fun n => root ++ [n])) ∧
    (∀ k, k = 0 ∨ 7 ≤ k → (find_account_dirs fs root).lookup k = none) ∧
    ((find_account_dirs fs root).map Prod.fst).Nodup := by
  by_cases hroot : fs.existsP root = true
  · have hfd : find_account_dirs fs root =
        (sortedSubdirs fs root).foldl (accountStep root) [] := by
      unfold find_account_dirs
      rw [if_pos hroot]
    have hinv := accountFold_inv root (sortedSubdirs fs root) []
      (by intro e he; simp at he) (by simp)
    refine ⟨?_, ?_, ?_, ?_⟩
    · intro h
      rw [hroot] at h
      exact absurd h (by simp)
    · intro _ k hk1 hk6
      rw [hfd, accountFold_lookup root (sortedSubdirs fs root) [] k hk1 hk6]
      rfl
    · intro k hk
      rw [hfd]
      refine lookup_eq_none_of_forall _ k (fun e he => ?_)
      have := hinv.1 e he
      omega
    · rw [hfd]
      exact hinv.2
  · have hfd : find_account_dirs fs root = [] := by
      unfold find_account_dirs
      rw [if_neg hroot]
    refine ⟨fun _ => hfd, ?_, ?_, ?_⟩
    · intro h
      exact absurd h hroot
    · intro k _
      rw [hfd]
      rfl
    · rw [hfd]
      simp

/-- Witness for C8 at a concrete pool: acc1 and acc2 claim 1 and 2, the
later acc2b is dropped, the stray file is skipped, and lookups outside 1..6
are empty. -/
theorem C8_witness :
    FS.existsP fsPool ["A"] = true ∧
    (find_account_dirs fsPool ["A"]).lookup 2 = some ["A", "acc2"] ∧
    (find_account_dirs fsPool ["A"]).lookup 7 = none ∧
    find_account_dirs fsPool ["A"] = [(1, ["A", "acc1"]), (2, ["A", "acc2"])] := by
  have hspec := C8_find_account_dirs_spec fsPool ["A"]
  refine ⟨by decide, ?_, hspec.2.2.1 7 (Or.inr (by omega)), by decide⟩
  have h2 := hspec.2.1 (by decide) 2 (by omega) (by omega)
  rw [h2]
  decide

/-! ### C2: post normalization -/

theorem postsFold (d : Path) :
    ∀ (l : List String), l.length ≤ 5 →
      l.enum.foldl (fun m e => dictSet m (e.1 + 1) (some (d ++ [e.2]))) emptyPostMap =
        (List.range' 1 5).map (fun i => (i, (l.get? (i - 1)).map (fun n => d ++ [n]))) := by
  intro l hl
  match l with
  | [] => rfl
  | [a] => rfl
  | [a, b] => rfl
  | [a, b, c] => rfl
  | [a, b, c, e] => rfl
  | [a, b, c, e, f] => rfl
  | a :: b :: c :: e :: f :: g :: t =>
    simp only [List.length_cons] at hl
    omega

/-- C2: for every account directory, post normalization returns a map with
exactly the keys 1..5, key i holding the i-th direct child in case-folded
ascending name order; children beyond the fifth are ignored, keys beyond the
child count are None, and a missing or non-existent account directory yields
the all-None map. -/
theorem C2_collect_and_normalize_posts (fs : FS) :
    (∀ d, fs.existsP d = true →
      collect_and_normalize_posts fs (some d) =
        (List.range' 1 5).map (fun i =>
          (i, ((sortedChildren fs d).get? (i - 1)).map (fun n => d ++ [n])))) ∧
    collect_and_normalize_posts fs none =
      [(1, none), (2, none), (3, none), (4, none), (5, none)] ∧
    (∀ d, fs.existsP d = false →
      collect_and_normalize_posts fs (some d) =
        [(1, none), (2, none), (3, none), (4, none), (5, none)]) := by
  refine ⟨?_, rfl, ?_⟩
  · intro d hd
    simp only [collect_and_normalize_posts]
    rw [if_pos hd]
    rw [postsFold d ((sortedChildren fs d).take 5) (List.length_take_le 5 _)]
    refine List.map_congr_left (fun i hi => ?_)
    have hi5 : i - 1 < 5 := by
      have := (List.mem_range'_1.mp hi).2
      omega
    rw [List.get?_take hi5]
  · intro d hd
    simp only [collect_and_normalize_posts]
    rw [if_neg (by rw [hd]; simp)]
    rfl

/-- Witness for C2 at a concrete four-child account directory: keys 1..4 are
the children in case-folded order and key 5 is None. -/
theorem C2_witness :
    FS.existsP fsPool ["A"] = true ∧
    collect_and_normalize_posts fsPool (some ["A"]) =
      [(1, some ["A", "acc1"]), (2, some ["A", "acc2"]), (3, some ["A", "acc2b"]),
       (4, some ["A", "note.txt"]), (5, none)] := by
  refine ⟨by decide, ?_⟩
  rw [(C2_collect_and_normalize_posts fsPool).1 ["A"] (by decide)]
  decide

/-! ### C1: the slot-to-source map under manual permutations -/

theorem dictSet_fresh {α : Type} (m : List (Nat × α)) (k : Nat) (v : α)
    (h : m.lookup k = none) : dictSet m k v = m ++ [(k, v)] := by
  unfold dictSet
  rw [h]
  simp

theorem writeSubgroup_fresh (accounts : List (Nat × Path)) :
    ∀ (slots : List Nat) (perm : List Int) (m : List (Nat × Option Path)),
      slots.length = perm.length → slots.Nodup →
      (∀ s ∈ slots, m.lookup s = none) →
      writeSubgroup accounts slots perm m =
        Except.ok (m ++ (slots.zip perm).map (fun e => (e.1, acctGet accounts e.2))) := by
  intro slots
  induction slots with
  | nil =>
    intro perm m hlen _ _
    cases perm with
    | nil => simp [writeSubgroup]
    | cons a r => simp at hlen
  | cons s srest ih =>
    intro perm m hlen hnd hfresh
    cases perm with
    | nil => simp at hlen
    | cons a arest =>
      have hdset : dictSet m s (acctGet accounts a) = m ++ [(s, acctGet accounts a)] :=
        dictSet_fresh m s (acctGet accounts a) (hfresh s (by simp))
      have hnotmem : s ∉ srest := (List.nodup_cons.mp hnd).1
      have hfresh' : ∀ s' ∈ srest, (m ++ [(s, acctGet accounts a)]).lookup s' = none := by
        intro s' hs'
        rw [lookup_append_single, hfresh s' (by simp [hs'])]
        have hne : s' ≠ s := by
          intro hc
          rw [hc] at hs'
          exact hnotmem hs'
        rw [if_neg hne]
      have hstep : writeSubgroup accounts (s :: srest) (a :: arest) m =
          writeSubgroup accounts srest arest (dictSet m s (acctGet accounts a)) := rfl
      rw [hstep, hdset,
        ih arest (m ++ [(s, acctGet accounts a)]) (by simpa using hlen)
          (List.nodup_cons.mp hnd).2 hfresh']
      simp

/-- C1: for every run in manual mode whose four manual strings are valid
3-element permutations of their bases, the slot-to-source map has exactly 12
entries, slots 1-12 in order: slots 1-3 hold the pool-A directories selected
in order by the first permutation, 4-6 by the second over pool A, 7-9 by the
third over pool B, 10-12 by the fourth over pool B; an account number absent
from the pool map yields None for that slot instead of failing the run. -/
theorem C1_slot_source_map (Aacc Bacc : List (Nat × Path)) (pk pn pd pr : String)
    (rng : Option (List (List Int) → List Int))
    (k1 k2 k3 n1 n2 n3 d1 d2 d3 r1 r2 r3 : Int)
    (hk : choose_perm (1, 2, 3) "manual" pk rng = Except.ok [k1, k2, k3])
    (hkP : ([k1, k2, k3] : List Int).Perm [1, 2, 3])
    (hn : choose_perm (4, 5, 6) "manual" pn rng = Except.ok [n1, n2, n3])
    (hnP : ([n1, n2, n3] : List Int).Perm [4, 5, 6])
    (hd : choose_perm (1, 2, 3) "manual" pd rng = Except.ok [d1, d2, d3])
    (hdP : ([d1, d2, d3] : List Int).Perm [1, 2, 3])
    (hr : choose_perm (4, 5, 6) "manual" pr rng = Except.ok [r1, r2, r3])
    (hrP : ([r1, r2, r3] : List Int).Perm [4, 5, 6]) :
    build_slot_to_src Aacc Bacc [k1, k2, k3] [n1, n2, n3] [d1, d2, d3] [r1, r2, r3] =
      Except.ok
        [(1, acctGet Aacc k1), (2, acctGet Aacc k2), (3, acctGet Aacc k3),
         (4, acctGet Aacc n1), (5, acctGet Aacc n2), (6, acctGet Aacc n3),
         (7, acctGet Bacc d1), (8, acctGet Bacc d2), (9, acctGet Bacc d3),
         (10, acctGet Bacc r1), (11, acctGet Bacc r2), (12, acctGet Bacc r3)] ∧
    List.map Prod.fst
      [(1, acctGet Aacc k1), (2, acctGet Aacc k2), (3, acctGet Aacc k3),
       (4, acctGet Aacc n1), (5, acctGet Aacc n2), (6, acctGet Aacc n3),
       (7, acctGet Bacc d1), (8, acctGet Bacc d2), (9, acctGet Bacc d3),
       (10, acctGet Bacc r1), (11, acctGet Bacc r2), (12, acctGet Bacc r3)] =
      List.range' 1 12 ∧
    (∀ (acc : List (Nat × Path)) (c : Int),
      (∀ q ∈ acc, (q.1 : Int) ≠ c) → acctGet acc c = none) := by
  refine ⟨?_, rfl, ?_⟩
  · have h1 : writeSubgroup Aacc (SLOT_RANGES "ㄱ") [k1, k2, k3] [] =
        Except.ok [(1, acctGet Aacc k1), (2, acctGet Aacc k2), (3, acctGet Aacc k3)] := by
      have hw := writeSubgroup_fresh Aacc [1, 2, 3] [k1, k2, k3] [] rfl (by decide)
        (fun s _ => rfl)
      have hsr : SLOT_RANGES "ㄱ" = [1, 2, 3] := by decide
      rw [hsr, hw]
      rfl
    have h2 : writeSubgroup Aacc (SLOT_RANGES "ㄴ") [n1, n2, n3]
        [(1, acctGet Aacc k1), (2, acctGet Aacc k2), (3, acctGet Aacc k3)] =
        Except.ok [(1, acctGet Aacc k1), (2, acctGet Aacc k2), (3, acctGet Aacc k3),
          (4, acctGet Aacc n1), (5, acctGet Aacc n2), (6, acctGet Aacc n3)] := by
      have hw := writeSubgroup_fresh Aacc [4, 5, 6] [n1, n2, n3]
        [(1, acctGet Aacc k1), (2, acctGet Aacc k2), (3, acctGet Aacc k3)] rfl (by decide)
        (by intro s hs; simp at hs; rcases hs with rfl | rfl | rfl <;> rfl)
      have hsr : SLOT_RANGES "ㄴ" = [4, 5, 6] := by decide
      rw [hsr, hw]
      rfl
    have h3 : writeSubgroup Bacc (SLOT_RANGES "ㄷ") [d1, d2, d3]
        [(1, acctGet Aacc k1), (2, acctGet Aacc k2), (3, acctGet Aacc k3),
         (4, acctGet Aacc n1), (5, acctGet Aacc n2), (6, acctGet Aacc n3)] =
        Except.ok [(1, acctGet Aacc k1), (2, acctGet Aacc k2), (3, acctGet Aacc k3),
          (4, acctGet Aacc n1), (5, acctGet Aacc n2), (6, acctGet Aacc n3),
          (7, acctGet Bacc d1), (8, acctGet Bacc d2), (9, acctGet Bacc d3)] := by
      have hw := writeSubgroup_fresh Bacc [7, 8, 9] [d1, d2, d3]
        [(1, acctGet Aacc k1), (2, acctGet Aacc k2), (3, acctGet Aacc k3),
         (4, acctGet Aacc n1), (5, acctGet Aacc n2), (6, acctGet Aacc n3)] rfl (by decide)
        (by intro s hs; simp at hs; rcases hs with rfl | rfl | rfl <;> rfl)
      have hsr : SLOT_RANGES "ㄷ" = [7, 8, 9] := by decide
      rw [hsr, hw]
      rfl
    have h4 : writeSubgroup Bacc (SLOT_RANGES "ㄹ") [r1, r2, r3]
        [(1, acctGet Aacc k1), (2, acctGet Aacc k2), (3, acctGet Aacc k3),
         (4, acctGet Aacc n1), (5, acctGet Aacc n2), (6, acctGet Aacc n3),
         (7, acctGet Bacc d1), (8, acctGet Bacc d2), (9, acctGet Bacc d3)] =
        Except.ok [(1, acctGet Aacc k1), (2, acctGet Aacc k2), (3, acctGet Aacc k3),
          (4, acctGet Aacc n1), (5, acctGet Aacc n2), (6, acctGet Aacc n3),
          (7, acctGet Bacc d1), (8, acctGet Bacc d2), (9, acctGet Bacc d3),
          (10, acctGet Bacc r1), (11, acctGet Bacc r2), (12, acctGet Bacc r3)] := by
      have hw := writeSubgroup_fresh Bacc [10, 11, 12] [r1, r2, r3]
        [(1, acctGet Aacc k1), (2, acctGet Aacc k2), (3, acctGet Aacc k3),
         (4, acctGet Aacc n1), (5, acctGet Aacc n2), (6, acctGet Aacc n3),
         (7, acctGet Bacc d1), (8, acctGet Bacc d2), (9, acctGet Bacc d3)] rfl (by decide)
        (by intro s hs; simp at hs; rcases hs with rfl | rfl | rfl <;> rfl)
      have hsr : SLOT_RANGES "ㄹ" = [10, 11, 12] := by decide
      rw [hsr, hw]
      rfl
    simp only [build_slot_to_src, h1, h2, h3, h4]
  intro acc c hc
  unfold acctGet
  rw [List.find?_eq_none.mpr (fun q hq => by simpa using hc q hq)]
  rfl

/-- Witness for C1 at pool A holding accounts 1..3 and an empty pool B: the
first sub-group fills slots 1-3 in permuted order and every other slot is
None. -/
theorem C1_witness :
    choose_perm (1, 2, 3) "manual" "3-1-2" none = Except.ok [3, 1, 2] ∧
    ([3, 1, 2] : List Int).Perm [1, 2, 3] ∧
    build_slot_to_src [(1, ["A", "1"]), (2, ["A", "2"]), (3, ["A", "3"])] []
      [3, 1, 2] [6, 4, 5] [2, 3, 1] [5, 6, 4] =
      Except.ok
        [(1, some ["A", "3"]), (2, some ["A", "1"]), (3, some ["A", "2"]),
         (4, none), (5, none), (6, none), (7, none), (8, none), (9, none),
         (10, none), (11, none), (12, none)] := by
  refine ⟨by decide, by decide, ?_⟩
  have h := (C1_slot_source_map [(1, ["A", "1"]), (2, ["A", "2"]), (3, ["A", "3"])] []
    "3-1-2" "6-4-5" "2-3-1" "5-6-4" none 3 1 2 6 4 5 2 3 1 5 6 4
    (by decide) (by decide) (by decide) (by decide)
    (by decide) (by decide) (by decide) (by decide)).1
  rw [h]
  decide

/-! ### C7: per-file image failure containment -/

/-- C7: if resizing or watermarking a single file raises, the failure stays at
the per-file boundary: a skip line carrying the reason is appended to the
plan log, the per-file operation returns 0, the file and the rest of the
filesystem are left exactly as copied, and the batch fold continues with the
remaining files instead of aborting the run. -/
theorem C7_image_failure_contained (o : ImgOracle) (path : Path) (rcfg : ResizeCfg)
    (wcfg : WatermarkCfg) (e : String) (fs : FS)
    (himg : isImageName (lastName path) = true)
    (hdec : o.decode (fs.node path) = Except.error e) :
    (∀ plans, resize_image_inplace o path rcfg plans false fs =
      (plans ++ ["[RSZ][skip] " ++ pathStr path ++ " (" ++ e ++ ")"], 0, fs)) ∧
    (pyStrip wcfg.text ≠ "" → ∀ plans,
      watermark_image_inplace o path wcfg plans false fs =
        (plans ++ ["[WM][skip] " ++ pathStr path ++ " (" ++ e ++ ")"], 0, fs)) ∧
    (∀ (stepFn : St → St) (cnt : Nat) (s : St) (rest : List Path), s.fs = fs →
      List.foldl (resizeFoldStep o rcfg false stepFn) (cnt, s) (path :: rest) =
        List.foldl (resizeFoldStep o rcfg false stepFn)
          (cnt,
            if cnt % 5 = 0 then
              stepFn { s with plans :=
                s.plans ++ ["[RSZ][skip] " ++ pathStr path ++ " (" ++ e ++ ")"] }
            else { s with plans :=
              s.plans ++ ["[RSZ][skip] " ++ pathStr path ++ " (" ++ e ++ ")"] }) rest) ∧
    (pyStrip wcfg.text ≠ "" →
      ∀ (stepFn : St → St) (cnt : Nat) (s : St) (rest : List Path), s.fs = fs →
      List.foldl (wmFoldStep o wcfg false stepFn) (cnt, s) (path :: rest) =
        List.foldl (wmFoldStep o wcfg false stepFn)
          (cnt,
            if cnt % 5 = 0 then
              stepFn { s with plans :=
                s.plans ++ ["[WM][skip] " ++ pathStr path ++ " (" ++ e ++ ")"] }
            else { s with plans :=
              s.plans ++ ["[WM][skip] " ++ pathStr path ++ " (" ++ e ++ ")"] }) rest) := by
  have ha : ∀ plans, resize_image_inplace o path rcfg plans false fs =
      (plans ++ ["[RSZ][skip] " ++ pathStr path ++ " (" ++ e ++ ")"], 0, fs) := by
    intro plans
    unfold resize_image_inplace
    simp only [himg, Bool.not_true, hdec]
    rfl
  have hb : pyStrip wcfg.text ≠ "" → ∀ plans,
      watermark_image_inplace o path wcfg plans false fs =
        (plans ++ ["[WM][skip] " ++ pathStr path ++ " (" ++ e ++ ")"], 0, fs) := by
    intro htext plans
    unfold watermark_image_inplace
    simp only [himg, Bool.not_true, hdec]
    rw [if_neg (by simp), if_neg htext]
  refine ⟨ha, hb, ?_, ?_⟩
  · intro stepFn cnt s rest hfs
    simp only [List.foldl_cons]
    have hstep : resizeFoldStep o rcfg false stepFn (cnt, s) path =
        (cnt,
          if cnt % 5 = 0 then
            stepFn { s with plans :=
              s.plans ++ ["[RSZ][skip] " ++ pathStr path ++ " (" ++ e ++ ")"] }
          else { s with plans :=
            s.plans ++ ["[RSZ][skip] " ++ pathStr path ++ " (" ++ e ++ ")"] }) := by
      unfold resizeFoldStep
      rw [hfs, ha s.plans, ← hfs]
      by_cases hc : cnt % 5 = 0 <;> simp [hc]
    rw [hstep]
  · intro htext stepFn cnt s rest hfs
    simp only [List.foldl_cons]
    have hstep : wmFoldStep o wcfg false stepFn (cnt, s) path =
        (cnt,
          if cnt % 5 = 0 then
            stepFn { s with plans :=
              s.plans ++ ["[WM][skip] " ++ pathStr path ++ " (" ++ e ++ ")"] }
          else { s with plans :=
            s.plans ++ ["[WM][skip] " ++ pathStr path ++ " (" ++ e ++ ")"] }) := by
      unfold wmFoldStep
      rw [hfs, hb htext s.plans, ← hfs]
      by_cases hc : cnt % 5 = 0 <;> simp [hc]
    rw [hstep]

/-- Witness for C7: with an always-failing decoder, the resize of a concrete
image file skips with the logged reason, returns 0, and leaves the
filesystem unchanged. -/
theorem C7_witness :
    isImageName (lastName ["d", "x.jpg"]) = true ∧
    resize_image_inplace fixOracle ["d", "x.jpg"] fixParams.resize [] false wmFS =
      ([] ++ ["[RSZ][skip] " ++ pathStr ["d", "x.jpg"] ++ " ("
        ++ "cannot identify image file" ++ ")"], 0, wmFS) := by
  have h := C7_image_failure_contained fixOracle ["d", "x.jpg"] fixParams.resize fixWmText
    "cannot identify image file" wmFS (by decide) rfl
  exact ⟨by decide, h.1 []⟩

/-! ### Engine-state preservation lemmas -/

theorem stepOp_fs (m : String) (s : St) : (stepOp m s).fs = s.fs := rfl

theorem stepOp_ctx (m : String) (s : St) : (stepOp m s).ctx = s.ctx := rfl

theorem resizeFoldStep_ctx (o : ImgOracle) (cfg : ResizeCfg) (dry : Bool) (m : String)
    (acc : Nat × St) (p : Path) :
    ((resizeFoldStep o cfg dry (stepOp m) acc p).2).ctx = acc.2.ctx := by
  simp only [resizeFoldStep]
  split <;> rfl

theorem wmFoldStep_ctx (o : ImgOracle) (cfg : WatermarkCfg) (dry : Bool) (m : String)
    (acc : Nat × St) (p : Path) :
    ((wmFoldStep o cfg dry (stepOp m) acc p).2).ctx = acc.2.ctx := by
  simp only [wmFoldStep]
  split <;> rfl

theorem foldl_resize_ctx (o : ImgOracle) (cfg : ResizeCfg) (dry : Bool) (m : String) :
    ∀ (l : List Path) (acc : Nat × St),
      ((l.foldl (resizeFoldStep o cfg dry (stepOp m)) acc).2).ctx = acc.2.ctx := by
  intro l
  induction l with
  | nil => intro acc; rfl
  | cons p rest ih =>
    intro acc
    rw [List.foldl_cons, ih, resizeFoldStep_ctx]

theorem foldl_wm_ctx (o : ImgOracle) (cfg : WatermarkCfg) (dry : Bool) (m : String) :
    ∀ (l : List Path) (acc : Nat × St),
      ((l.foldl (wmFoldStep o cfg dry (stepOp m)) acc).2).ctx = acc.2.ctx := by
  intro l
  induction l with
  | nil => intro acc; rfl
  | cons p rest ih =>
    intro acc
    rw [List.foldl_cons, ih, wmFoldStep_ctx]

theorem resize_all_ctx (o : ImgOracle) (root : Path) (cfg : ResizeCfg) (dry : Bool)
    (m : String) (s : St) :
    ((resize_all_images o root cfg dry (stepOp m) s).2).ctx = s.ctx := by
  simp only [resize_all_images]
  split
  · split <;> rfl
  · exact foldl_resize_ctx o cfg dry m _ _

theorem wm_all_ctx (o : ImgOracle) (root : Path) (cfg : WatermarkCfg) (dry : Bool)
    (m : String) (s : St) :
    ((watermark_all_images o root cfg dry (stepOp m) s).2).ctx = s.ctx := by
  simp only [watermark_all_images]
  split
  · split <;> rfl
  · exact foldl_wm_ctx o cfg dry m _ _

theorem copyPostStep_ctx (o : ImgOracle) (rcfg : ResizeCfg) (wcfg : WatermarkCfg)
    (dry : Bool) (fp : Path) (posts : List (Nat × Option Path)) (s : St) (e : Nat × Nat) :
    (copyPostStep o rcfg wcfg dry fp posts s e).ctx = s.ctx := by
  simp only [copyPostStep]
  split
  · rw [stepOp_ctx]
    split <;> split <;> (try split) <;> (try split) <;> rfl
  · rw [stepOp_ctx]
    split
    · rw [wm_all_ctx]
      split
      · rw [resize_all_ctx]
        split <;> (try split) <;> (try split) <;> rfl
      · split <;> (try split) <;> (try split) <;> rfl
    · split
      · rw [resize_all_ctx]
        split <;> (try split) <;> (try split) <;> rfl
      · split <;> (try split) <;> (try split) <;> rfl

theorem foldl_copyPostStep_ctx (o : ImgOracle) (rcfg : ResizeCfg) (wcfg : WatermarkCfg)
    (dry : Bool) (fp : Path) (posts : List (Nat × Option Path)) :
    ∀ (l : List (Nat × Nat)) (s : St),
      (l.foldl (copyPostStep o rcfg wcfg dry fp posts) s).ctx = s.ctx := by
  intro l
  induction l with
  | nil => intro s; rfl
  | cons e rest ih =>
    intro s
    rw [List.foldl_cons, ih, copyPostStep_ctx]

theorem copy_account_posts_uiLogs (o : ImgOracle) (rcfg : ResizeCfg) (wcfg : WatermarkCfg)
    (src : Option Path) (dp : Path) (ord : List Nat) (dry : Bool) (s : St) :
    (copy_account_posts o rcfg wcfg src dp ord dry s).ctx.uiLogs = s.ctx.uiLogs := by
  simp only [copy_account_posts]
  rw [foldl_copyPostStep_ctx]
  split <;> rfl

theorem copyPostStep_dry_fs (o : ImgOracle) (rcfg : ResizeCfg) (wcfg : WatermarkCfg)
    (fp : Path) (posts : List (Nat × Option Path)) (s : St) (e : Nat × Nat) :
    (copyPostStep o rcfg wcfg true fp posts s e).fs = s.fs := by
  simp only [copyPostStep, if_true]
  rw [stepOp_fs]
  split <;> split <;> (try split) <;> (try split) <;> rfl

theorem foldl_copyPostStep_dry_fs (o : ImgOracle) (rcfg : ResizeCfg) (wcfg : WatermarkCfg)
    (fp : Path) (posts : List (Nat × Option Path)) :
    ∀ (l : List (Nat × Nat)) (s : St),
      (l.foldl (copyPostStep o rcfg wcfg true fp posts) s).fs = s.fs := by
  intro l
  induction l with
  | nil => intro s; rfl
  | cons e rest ih =>
    intro s
    rw [List.foldl_cons, ih, copyPostStep_dry_fs]

theorem copy_account_posts_dry_fs (o : ImgOracle) (rcfg : ResizeCfg) (wcfg : WatermarkCfg)
    (src : Option Path) (dp : Path) (ord : List Nat) (s : St) :
    (copy_account_posts o rcfg wcfg src dp ord true s).fs = s.fs := by
  simp only [copy_account_posts, if_true]
  rw [foldl_copyPostStep_dry_fs]

theorem slotLoop_fs_dry (o : ImgOracle) (ca : Nat → Bool) (rcfg : ResizeCfg)
    (wcfg : WatermarkCfg) (tr : Path) (tg : List TargetSlot)
    (sts : List (Nat × Option Path)) (pn day : String) (ord : List Nat) :
    ∀ (slots : List Nat) (s : St),
      ((slotLoop o ca rcfg wcfg tr tg sts pn day ord true slots s).1).fs = s.fs := by
  intro slots
  induction slots with
  | nil => intro s; rfl
  | cons slot rest ih =>
    intro s
    simp only [slotLoop]
    split
    · rfl
    · split
      · rfl
      · rw [ih, copy_account_posts_dry_fs]
        rfl

theorem slotLoop_uiLogs (o : ImgOracle) (ca : Nat → Bool) (rcfg : ResizeCfg)
    (wcfg : WatermarkCfg) (tr : Path) (tg : List TargetSlot)
    (sts : List (Nat × Option Path)) (pn day : String) (ord : List Nat) (dry : Bool) :
    ∀ (slots : List Nat) (s : St),
      ((slotLoop o ca rcfg wcfg tr tg sts pn day ord dry slots s).1).ctx.uiLogs =
        s.ctx.uiLogs := by
  intro slots
  induction slots with
  | nil => intro s; rfl
  | cons slot rest ih =>
    intro s
    simp only [slotLoop]
    split
    · rfl
    · split
      · rfl
      · rw [ih, copy_account_posts_uiLogs]
        rfl

theorem andThen_fs_eq (r : St × Flow) (k : St → St × Flow) (v : FS)
    (hr : r.1.fs = v) (hk : ∀ s, s.fs = v → ((k s).1).fs = v) :
    ((andThen r k).1).fs = v := by
  rcases r with ⟨s, f⟩
  cases f
  · exact hk s hr
  · exact hr
  · exact hr

theorem andThen_uiLogs (r : St × Flow) (k : St → St × Flow)
    (hk : ∀ s, ((k s).1).ctx.uiLogs = s.ctx.uiLogs) :
    ((andThen r k).1).ctx.uiLogs = r.1.ctx.uiLogs := by
  rcases r with ⟨s, f⟩
  cases f
  · exact hk s
  · rfl
  · rfl

/-! ### C5: dry-run purity -/

/-- C5: a run with dry_run true creates no file or directory anywhere: the
final filesystem equals the starting one, every destination creation, copy,
resize and watermark being replaced by appended plan-log lines. -/
theorem C5_dry_run_pure (o : ImgOracle) (cancelAt : Nat → Bool)
    (rngPick : List (List Int) → List Int) (todayIdx : Fin 7)
    (params : Params) (fs0 : FS) (ctx0 : RunCtx)
    (hdry : params.dry_run = true) :
    (rearrange_run o cancelAt rngPick todayIdx params fs0 ctx0).1.fs = fs0 := by
  simp only [rearrange_run, hdry, onOk]
  split
  · rfl
  split
  · rfl
  split
  · rfl
  split
  · rfl
  split
  · split <;> rfl
  split
  · split <;> rfl
  split
  · split <;> rfl
  split
  · split <;> rfl
  split
  · split <;> rfl
  refine andThen_fs_eq _ _ fs0
    (andThen_fs_eq _ _ fs0
      (andThen_fs_eq _ _ fs0
        (andThen_fs_eq _ _ fs0 ?hbase ?hk2) ?hk3) ?hk4) ?hk5
  case hbase =>
    rw [slotLoop_fs_dry]
    by_cases h : params.perm_mode = "random" <;> simp [h, checkCancel, initSt]
  case hk2 =>
    intro s hs
    rw [slotLoop_fs_dry]
    exact hs
  case hk3 =>
    intro s hs
    rw [slotLoop_fs_dry]
    exact hs
  case hk4 =>
    intro s hs
    rw [slotLoop_fs_dry]
    exact hs
  case hk5 =>
    intro s hs
    simpa [stepOp] using hs

/-- Witness for C5: the concrete dry run leaves the concrete filesystem
untouched. -/
theorem C5_witness :
    fixParams.dry_run = true ∧
    (rearrange_run fixOracle (fun _ => false) (fun _ => []) (0 : Fin 7) fixParams
      fixFS fixCtx).1.fs = fixFS :=
  ⟨rfl, C5_dry_run_pure fixOracle (fun _ => false) (fun _ => []) (0 : Fin 7) fixParams
    fixFS fixCtx rfl⟩

/-! ### C4: validation failures are pre-I/O and surface once through onDone -/

/-- C4: when the target list does not have exactly 12 entries, or a pool root
or the target root does not exist, the run fails before performing any
filesystem write: the returned state is the start state untouched (same
filesystem, same shared context, no plans) apart from the one
cancellation-flag read, and the completion callback fires with
(false, message) for a non-empty descriptive message. -/
theorem C4_validation_failure (o : ImgOracle) (cancelAt : Nat → Bool)
    (rngPick : List (List Int) → List Int) (todayIdx : Fin 7)
    (params : Params) (fs0 : FS) (ctx0 : RunCtx)
    (hc : cancelAt 0 = false)
    (hbad : params.targets.length ≠ 12 ∨ fs0.existsP params.A_root = false ∨
      fs0.existsP params.B_root = false ∨ fs0.existsP params.target_root = false) :
    ∃ msg, msg ≠ "" ∧
      rearrange_run o cancelAt rngPick todayIdx params fs0 ctx0 =
        ({ initSt fs0 ctx0 with cancelCalls := 1 }, Flow.raised msg) ∧
      controller_done (rearrange_run o cancelAt rngPick todayIdx params fs0 ctx0) =
        (false, msg) := by
  have hcs1 : (checkCancel cancelAt (initSt fs0 ctx0)).1 = false := by
    simp [checkCancel, initSt, hc]
  suffices h : ∃ msg, msg ≠ "" ∧
      rearrange_run o cancelAt rngPick todayIdx params fs0 ctx0 =
        ({ initSt fs0 ctx0 with cancelCalls := 1 }, Flow.raised msg) by
    obtain ⟨msg, hne, heq⟩ := h
    exact ⟨msg, hne, heq, by rw [heq]; rfl⟩
  by_cases h12 : params.targets.length = 12
  · by_cases hA : fs0.existsP params.A_root = true
    · by_cases hB : fs0.existsP params.B_root = true
      · have hT : fs0.existsP params.target_root = false := by
          rcases hbad with h | h | h | h
          · exact absurd h12 h
          · rw [hA] at h
            exact absurd h (by simp)
          · rw [hB] at h
            exact absurd h (by simp)
          · exact h
        refine ⟨"Target root does not exist.", by decide, ?_⟩
        simp only [rearrange_run]
        rw [if_neg (by simp [hcs1]), if_neg (by simpa [List.length_map] using h12),
          if_neg (by simp [hA, hB]), if_pos (by simp [hT])]
        rfl
      · have hB' : fs0.existsP params.B_root = false := by
          cases hx : fs0.existsP params.B_root
          · rfl
          · exact absurd hx hB
        refine ⟨"A_root or B_root does not exist.", by decide, ?_⟩
        simp only [rearrange_run]
        rw [if_neg (by simp [hcs1]), if_neg (by simpa [List.length_map] using h12),
          if_pos (by simp [hB'])]
        rfl
    · have hA' : fs0.existsP params.A_root = false := by
        cases hx : fs0.existsP params.A_root
        · rfl
        · exact absurd hx hA
      refine ⟨"A_root or B_root does not exist.", by decide, ?_⟩
      simp only [rearrange_run]
      rw [if_neg (by simp [hcs1]), if_neg (by simpa [List.length_map] using h12),
        if_pos (by simp [hA'])]
      rfl
  · refine ⟨"Exactly 12 targets required.", by decide, ?_⟩
    simp only [rearrange_run]
    rw [if_neg (by simp [hcs1]), if_pos (by simpa [List.length_map] using h12)]
    rfl

/-- Witness for C4 at a concrete run with only 11 targets. -/
theorem C4_witness :
    (fun _ : Nat => false) 0 = false ∧
    ({ fixParams with targets := fixTargets.take 11 } : Params).targets.length ≠ 12 ∧
    ∃ msg, msg ≠ "" ∧
      rearrange_run fixOracle (fun _ => false) (fun _ => []) (0 : Fin 7)
        { fixParams with targets := fixTargets.take 11 } fixFS fixCtx =
        ({ initSt fixFS fixCtx with cancelCalls := 1 }, Flow.raised msg) ∧
      controller_done (rearrange_run fixOracle (fun _ => false) (fun _ => []) (0 : Fin 7)
        { fixParams with targets := fixTargets.take 11 } fixFS fixCtx) = (false, msg) :=
  ⟨rfl, by decide,
    C4_validation_failure fixOracle (fun _ => false) (fun _ => []) (0 : Fin 7)
      { fixParams with targets := fixTargets.take 11 } fixFS fixCtx rfl
      (Or.inl (by decide))⟩

/-! ### C3: cancellation at a slot boundary

The original claim also asserts that the accumulated plan-log lines are
available to the caller after a cancelled run; the code returns from inside
the slot loop before the final extend of the shared context, so the local
plans list is discarded.  The counterexample below exhibits a cancelled run
with a non-empty local plan list and an untouched caller context. -/

theorem andThen_early (r : St × Flow) (k : St → St × Flow)
    (hk : ∀ s, (k s).2 ≠ Flow.earlyReturn)
    (h : (andThen r k).2 = Flow.earlyReturn) :
    andThen r k = r ∧ r.2 = Flow.earlyReturn := by
  rcases r with ⟨s, f⟩
  cases f
  · exact absurd h (hk s)
  · exact ⟨rfl, rfl⟩
  · simp [andThen] at h

theorem final_branch_disj (r : St × Flow) (k : St → St × Flow) (v : Option (List String))
    (hk : ∀ s, (k s).2 ≠ Flow.earlyReturn)
    (hr : r.1.ctx.uiLogs = v) :
    (andThen r k).2 ≠ Flow.earlyReturn ∨
    ((andThen r k).1.ctx.uiLogs = v ∧ controller_done (andThen r k) = (true, "")) := by
  by_cases h : (andThen r k).2 = Flow.earlyReturn
  · right
    obtain ⟨he, -⟩ := andThen_early r k hk h
    refine ⟨by rw [he]; exact hr, ?_⟩
    simp [controller_done, h]
  · left
    exact h

/-- Counterexample to C3 as stated: a concrete run cancelled at the first
slot iteration ends as a clean early return reported as success, but its
accumulated plan-log lines (the mapping summary is non-empty) are not made
available to the caller: the shared context still has no log key. -/
theorem C3_counterexample :
    (rearrange_run fixOracle (fun i => decide (1 ≤ i)) (fun _ => []) (0 : Fin 7)
      fixParams fixFS fixCtx).2 = Flow.earlyReturn ∧
    (rearrange_run fixOracle (fun i => decide (1 ≤ i)) (fun _ => []) (0 : Fin 7)
      fixParams fixFS fixCtx).1.plans ≠ [] ∧
    (rearrange_run fixOracle (fun i => decide (1 ≤ i)) (fun _ => []) (0 : Fin 7)
      fixParams fixFS fixCtx).1.ctx.uiLogs = none ∧
    controller_done (rearrange_run fixOracle (fun i => decide (1 ≤ i)) (fun _ => [])
      (0 : Fin 7) fixParams fixFS fixCtx) = (true, "") := by
  decide

/-- C3 amended: if the cancellation flag is set when the engine checks it at
the start of a slot iteration, the run stops immediately with the state
accumulated so far (only the flag-read counter advances) as a clean
non-error early return; every early-returning run reports success through
the completion callback and leaves the caller-shared log key untouched, so
the result directories accumulated in the shared context survive while the
locally accumulated plan-log lines are discarded. -/
theorem C3_amended :
    (∀ (o : ImgOracle) (cancelAt : Nat → Bool) (rcfg : ResizeCfg) (wcfg : WatermarkCfg)
      (tr : Path) (tg : List TargetSlot) (sts : List (Nat × Option Path))
      (pn day : String) (ord : List Nat) (dry : Bool) (slot : Nat) (rest : List Nat)
      (s : St),
      cancelAt s.cancelCalls = true →
      slotLoop o cancelAt rcfg wcfg tr tg sts pn day ord dry (slot :: rest) s =
        ({ s with cancelCalls := s.cancelCalls + 1 }, Flow.earlyReturn)) ∧
    (∀ (o : ImgOracle) (cancelAt : Nat → Bool) (rngPick : List (List Int) → List Int)
      (todayIdx : Fin 7) (params : Params) (fs0 : FS) (ctx0 : RunCtx),
      (rearrange_run o cancelAt rngPick todayIdx params fs0 ctx0).2 =
        Flow.earlyReturn →
      (rearrange_run o cancelAt rngPick todayIdx params fs0 ctx0).1.ctx.uiLogs =
        ctx0.uiLogs ∧
      controller_done (rearrange_run o cancelAt rngPick todayIdx params fs0 ctx0) =
        (true, "")) := by
  constructor
  · intro o cancelAt rcfg wcfg tr tg sts pn day ord dry slot rest s h
    simp only [slotLoop]
    rw [if_pos (show (checkCancel cancelAt s).1 = true by simpa [checkCancel] using h)]
    rfl
  · intro o cancelAt rngPick todayIdx params fs0 ctx0 hflow
    have hdisj : (rearrange_run o cancelAt rngPick todayIdx params fs0 ctx0).2 ≠
        Flow.earlyReturn ∨
        ((rearrange_run o cancelAt rngPick todayIdx params fs0 ctx0).1.ctx.uiLogs =
          ctx0.uiLogs ∧
         controller_done (rearrange_run o cancelAt rngPick todayIdx params fs0 ctx0) =
          (true, "")) := by
      simp only [rearrange_run, onOk]
      split
      · right
        exact ⟨rfl, rfl⟩
      split
      · left
        simp
      split
      · left
        simp
      split
      · left
        simp
      split
      · left
        simp
      split
      · left
        simp
      split
      · left
        simp
      split
      · left
        simp
      split
      · left
        simp
      refine final_branch_disj _ _ _ (fun s => by simp) ?_
      rw [andThen_uiLogs _ _ (fun s => slotLoop_uiLogs _ _ _ _ _ _ _ _ _ _ _ _ s),
          andThen_uiLogs _ _ (fun s => slotLoop_uiLogs _ _ _ _ _ _ _ _ _ _ _ _ s),
          andThen_uiLogs _ _ (fun s => slotLoop_uiLogs _ _ _ _ _ _ _ _ _ _ _ _ s),
          slotLoop_uiLogs]
      by_cases hpm : params.perm_mode = "random" <;>
        simp [hpm, checkCancel, initSt] <;>
        split <;> rfl
    rcases hdisj with hne | hok
    · exact absurd hflow hne
    · exact hok

/-- Witness for the amended C3: the slot loop stops immediately on a set
flag at a concrete state, and the concrete cancelled run reports success
with the caller context log key untouched. -/
theorem C3_witness :
    slotLoop fixOracle (fun _ => true) fixParams.resize fixParams.watermark ["tgt"] []
      [] "p" "월" [] true [1] (initSt fixFS fixCtx) =
      ({ initSt fixFS fixCtx with cancelCalls := 1 }, Flow.earlyReturn) ∧
    ((rearrange_run fixOracle (fun i => decide (1 ≤ i)) (fun _ => []) (0 : Fin 7)
        fixParams fixFS fixCtx).1.ctx.uiLogs = fixCtx.uiLogs ∧
     controller_done (rearrange_run fixOracle (fun i => decide (1 ≤ i)) (fun _ => [])
        (0 : Fin 7) fixParams fixFS fixCtx) = (true, "")) := by
  constructor
  · exact C3_amended.1 fixOracle (fun _ => true) fixParams.resize fixParams.watermark
      ["tgt"] [] [] "p" "월" [] true 1 [] (initSt fixFS fixCtx) rfl
  · exact C3_amended.2 fixOracle (fun i => decide (1 ≤ i)) (fun _ => []) (0 : Fin 7)
      fixParams fixFS fixCtx (by decide)

end Rearrange
